import Mathlib

/-!
# Verification of the egui_nodes interaction engine

A shallow embedding of the node-editor engine from `src/lib.rs`, `src/link.rs`,
`src/node.rs`, `src/pin.rs` and `src/style.rs`.  Geometry is modelled with
exact rational coordinates (the concrete inputs used in the theorems are small
dyadic rationals, on which the `f32` arithmetic of the source is exact).
`HashMap` is modelled as an association list with unique keys, `Vec` as `List`
(with `Vec::pop` taking the head of a top-first free list, matching the push
order used by the source).
-/

namespace EguiNodes

/-! ### Geometry primitives (model of the egui types used by the code) -/

structure Pos2 where
  x : ℚ
  y : ℚ
deriving DecidableEq

def Pos2.sub (a b : Pos2) : Pos2 := ⟨a.x - b.x, a.y - b.y⟩

/-- `egui::Vec2::length_sq` of the difference of two points. -/
def Pos2.lengthSq (a : Pos2) : ℚ := a.x * a.x + a.y * a.y

/-- Squared distance between two points, as computed by
`(pin_pos - self.mouse_pos).length_sq()`. -/
def distSq (a b : Pos2) : ℚ := (Pos2.sub a b).lengthSq

structure Rect where
  min : Pos2
  max : Pos2
deriving DecidableEq

/-- `egui::Rect::contains`: inclusive on all four sides. -/
def Rect.containsP (r : Rect) (p : Pos2) : Bool :=
  decide (r.min.x ≤ p.x ∧ p.x ≤ r.max.x ∧ r.min.y ≤ p.y ∧ p.y ≤ r.max.y)

/-- `egui::Rect::intersects`: inclusive overlap test of the coordinate ranges. -/
def Rect.intersects (r o : Rect) : Bool :=
  decide (r.min.x ≤ o.max.x ∧ o.min.x ≤ r.max.x ∧ r.min.y ≤ o.max.y ∧ o.min.y ≤ r.max.y)

/-! ### HashMap model: association list with unique keys -/

def alistFind (m : List (Nat × Nat)) (id : Nat) : Option Nat :=
  (m.find? (fun e => e.1 == id)).map (fun e => e.2)

def alistInsert (m : List (Nat × Nat)) (id v : Nat) : List (Nat × Nat) :=
  (id, v) :: m.filter (fun e => !(e.1 == id))

def alistRemove (m : List (Nat × Nat)) (id : Nat) : List (Nat × Nat) :=
  m.filter (fun e => !(e.1 == id))

theorem alistFind_insert_self (m : List (Nat × Nat)) (id v : Nat) :
    alistFind (alistInsert m id v) id = some v := by
  simp [alistFind, alistInsert, List.find?]

theorem find?_filter_key (m : List (Nat × Nat)) (id id' : Nat) (hne : id ≠ id') :
    (m.filter (fun e => !(e.1 == id'))).find? (fun e => e.1 == id) =
      m.find? (fun e => e.1 == id) := by
  have hba : (id' == id) = false := beq_eq_false_iff_ne.mpr (Ne.symm hne)
  induction m with
  | nil => rfl
  | cons e t ih =>
    by_cases h : e.1 = id'
    · have hpe : (e.1 == id) = false := by
        rw [h]
        exact hba
      simp [List.filter_cons, h, List.find?_cons, hpe, hba, ih]
    · by_cases h2 : e.1 = id
      · simp [List.filter_cons, h, List.find?_cons, h2, hne]
      · simp [List.filter_cons, h, List.find?_cons, h2, ih]

theorem alistFind_insert_ne (m : List (Nat × Nat)) (id id' v : Nat) (hne : id ≠ id') :
    alistFind (alistInsert m id' v) id = alistFind m id := by
  have h : (id' == id) = false := by
    simp
    exact fun hc => hne hc.symm
  simp only [alistFind, alistInsert, List.find?_cons, h]
  rw [find?_filter_key m id id' hne]

theorem alistFind_remove_self (m : List (Nat × Nat)) (id : Nat) :
    alistFind (alistRemove m id) id = none := by
  simp only [alistFind, alistRemove, Option.map_eq_none']
  rw [List.find?_eq_none]
  intro e he
  have := List.of_mem_filter he
  simp at this ⊢
  exact this

theorem alistFind_remove_of_none (m : List (Nat × Nat)) (id k : Nat)
    (h : alistFind m id = none) : alistFind (alistRemove m k) id = none := by
  simp only [alistFind, alistRemove, Option.map_eq_none'] at h ⊢
  rw [List.find?_eq_none] at h ⊢
  intro e he
  exact h e (List.mem_of_mem_filter he)

/-! ### The generic object pool (`ObjectPool<T>` from `lib.rs`)

`find_or_create_index` needs the `Id` trait's `new`, and `update` needs the
trait's `id`; these are passed explicitly as `mkNew` and `getId`. -/

structure ObjectPool (T : Type) where
  pool : List T
  in_use : List Bool
  free : List Nat
  map : List (Nat × Nat)

def ObjectPool.find {T : Type} (p : ObjectPool T) (id : Nat) : Option Nat :=
  alistFind p.map id

def ObjectPool.reset {T : Type} (p : ObjectPool T) : ObjectPool T :=
  { p with in_use := p.in_use.map (fun _ => false) }

def ObjectPool.findOrCreateIndex {T : Type} (mkNew : Nat → T) (p : ObjectPool T) (id : Nat) :
    Nat × ObjectPool T :=
  match p.find id with
  | some index => (index, { p with in_use := p.in_use.set index true })
  | none =>
    match p.free with
    | index :: rest =>
        (index,
          { p with
            pool := p.pool.set index (mkNew id)
            free := rest
            map := alistInsert p.map id index
            in_use := p.in_use.set index true })
    | [] =>
        (p.pool.length,
          { p with
            pool := p.pool ++ [mkNew id]
            in_use := (p.in_use ++ [false]).set p.pool.length true
            map := alistInsert p.map id p.pool.length })

/-- One step of `ObjectPool::update`'s loop body, for slot `x.1` holding
in-use flag `x.2.1` and object `x.2.2`; the accumulator carries the map and
the free list being rebuilt. -/
def poolUpdateStep {T : Type} (getId : T → Nat) (acc : List (Nat × Nat) × List Nat)
    (x : Nat × Bool × T) : List (Nat × Nat) × List Nat :=
  if x.2.1 then acc else (alistRemove acc.1 (getId x.2.2), x.1 :: acc.2)

/-- `ObjectPool::update`: clear the free list, then for every slot that is not
in use, drop its id mapping and return the slot to the free list. -/
def ObjectPool.update {T : Type} (getId : T → Nat) (p : ObjectPool T) : ObjectPool T :=
  let res := (p.in_use.zip p.pool).enum.foldl (poolUpdateStep getId) (p.map, [])
  { p with map := res.1, free := res.2 }

/-- C3 helper: after a `find_or_create_index` call the map resolves the id to
the returned index. -/
theorem find_after_findOrCreateIndex {T : Type} (mkNew : Nat → T) (p : ObjectPool T) (id : Nat) :
    (p.findOrCreateIndex mkNew id).2.find id = some (p.findOrCreateIndex mkNew id).1 := by
  unfold ObjectPool.findOrCreateIndex
  cases hf : p.find id with
  | some index => simpa [ObjectPool.find] using hf
  | none =>
    cases hfr : p.free with
    | cons index rest => simp [ObjectPool.find, alistFind_insert_self]
    | nil => simp [ObjectPool.find, alistFind_insert_self]

/-- C3: within one frame (no intervening `reset`/`update`), a repeated
`find_or_create_index` with the same id returns the same slot index and leaves
the pool unchanged. -/
theorem findOrCreateIndex_stable {T : Type} (mkNew : Nat → T) (p : ObjectPool T) (id : Nat) :
    ((p.findOrCreateIndex mkNew id).2.findOrCreateIndex mkNew id).1 =
        (p.findOrCreateIndex mkNew id).1 ∧
      ((p.findOrCreateIndex mkNew id).2.findOrCreateIndex mkNew id).2 =
        (p.findOrCreateIndex mkNew id).2 := by
  have hfind := find_after_findOrCreateIndex mkNew p id
  set q := (p.findOrCreateIndex mkNew id).2 with hq
  set i := (p.findOrCreateIndex mkNew id).1 with hi
  have hstep : q.findOrCreateIndex mkNew id = (i, { q with in_use := q.in_use.set i true }) := by
    unfold ObjectPool.findOrCreateIndex
    rw [hfind]
  constructor
  · rw [hstep]
  · rw [hstep]
    have huse : q.in_use.set i true = q.in_use := by
      have : q.in_use = q.in_use := rfl
      -- in every branch of the first call, `q.in_use` already ends with `set i true`
      unfold ObjectPool.findOrCreateIndex at hq hi
      cases hf : p.find id with
      | some index =>
        rw [hf] at hq hi
        simp at hq hi
        rw [hq, hi, List.set_set]
      | none =>
        cases hfr : p.free with
        | cons index rest =>
          rw [hf, hfr] at hq hi
          simp at hq hi
          rw [hq, hi, List.set_set]
        | nil =>
          rw [hf, hfr] at hq hi
          simp at hq hi
          rw [hq, hi, List.set_set]
    rw [huse]

/-! ### Frame lifecycle of a pool, as driven by `Context::show`:
reset all in-use flags, `find_or_create_index` each declared id, reclaim. -/

def ObjectPool.declareAll {T : Type} (mkNew : Nat → T) (p : ObjectPool T) (ids : List Nat) :
    ObjectPool T :=
  ids.foldl (fun q i => (q.findOrCreateIndex mkNew i).2) p

def ObjectPool.frame {T : Type} (getId : T → Nat) (mkNew : Nat → T) (p : ObjectPool T)
    (ids : List Nat) : ObjectPool T :=
  ((p.reset).declareAll mkNew ids).update getId

/-- Well-formedness of a pool: every id mapping points to an in-bounds slot
holding that id, no two ids share a slot, free slots are in bounds and
unmapped, and the flag vector parallels the storage vector. -/
def ObjectPool.WF {T : Type} (getId : T → Nat) (p : ObjectPool T) : Prop :=
  (∀ e ∈ p.map, (p.pool[e.2]?).map getId = some e.1) ∧
  List.Pairwise (fun a b => a.1 ≠ b.1 ∧ a.2 ≠ b.2) p.map ∧
  (∀ i ∈ p.free, i < p.pool.length ∧ ∀ e ∈ p.map, e.2 ≠ i) ∧
  p.in_use.length = p.pool.length

/-- Mid-frame state of an id that was live last frame and has not been
redeclared yet: its slot is still mapped, not marked in use, holds the id,
is claimed by no other id, and is not on the free list. -/
def SlotReserved {T : Type} (getId : T → Nat) (id i : Nat) (p : ObjectPool T) : Prop :=
  p.find id = some i ∧
  p.in_use[i]? = some false ∧
  (p.pool[i]?).map getId = some id ∧
  (∀ e ∈ p.map, e.2 = i → e.1 = id) ∧
  i ∉ p.free

theorem getElem?_some_lt {α : Type} {l : List α} {i : Nat} {a : α}
    (h : l[i]? = some a) : i < l.length := by
  by_contra hc
  rw [List.getElem?_eq_none_iff.mpr (Nat.le_of_not_lt hc)] at h
  exact Option.noConfusion h

theorem findOrCreateIndex_of_find {T : Type} (mkNew : Nat → T) (p : ObjectPool T)
    (id idx : Nat) (h : p.find id = some idx) :
    p.findOrCreateIndex mkNew id = (idx, { p with in_use := p.in_use.set idx true }) := by
  unfold ObjectPool.findOrCreateIndex
  rw [h]

theorem findOrCreateIndex_of_free {T : Type} (mkNew : Nat → T) (p : ObjectPool T)
    (id j : Nat) (rest : List Nat) (h : p.find id = none) (hf : p.free = j :: rest) :
    p.findOrCreateIndex mkNew id =
      (j, { p with
            pool := p.pool.set j (mkNew id)
            free := rest
            map := alistInsert p.map id j
            in_use := p.in_use.set j true }) := by
  unfold ObjectPool.findOrCreateIndex
  rw [h, hf]

theorem findOrCreateIndex_of_push {T : Type} (mkNew : Nat → T) (p : ObjectPool T)
    (id : Nat) (h : p.find id = none) (hf : p.free = []) :
    p.findOrCreateIndex mkNew id =
      (p.pool.length,
        { p with
          pool := p.pool ++ [mkNew id]
          in_use := (p.in_use ++ [false]).set p.pool.length true
          map := alistInsert p.map id p.pool.length }) := by
  unfold ObjectPool.findOrCreateIndex
  rw [h, hf]

instance {T : Type} (getId : T → Nat) (p : ObjectPool T) : Decidable (p.WF getId) := by
  unfold ObjectPool.WF
  infer_instance

theorem alistFind_mem {m : List (Nat × Nat)} {id v : Nat} (h : alistFind m id = some v) :
    (id, v) ∈ m := by
  unfold alistFind at h
  cases hf : m.find? (fun e => e.1 == id) with
  | none => rw [hf] at h; simp at h
  | some e =>
    rw [hf] at h
    simp at h
    have hp := List.find?_some hf
    have hm := List.mem_of_find?_eq_some hf
    simp at hp
    obtain ⟨e1, e2⟩ := e
    simp at hp h
    rw [← hp, ← h]
    exact hm

theorem slotReserved_findOrCreate {T : Type} (getId : T → Nat) (mkNew : Nat → T)
    {id i : Nat} {p : ObjectPool T} (h : SlotReserved getId id i p) (id' : Nat)
    (hne : id' ≠ id) : SlotReserved getId id i (p.findOrCreateIndex mkNew id').2 := by
  obtain ⟨hfind, huse, hpool, huniq, hfree⟩ := h
  have hipool : i < p.pool.length := by
    cases hp : p.pool[i]? with
    | none => rw [hp] at hpool; simp at hpool
    | some o => exact getElem?_some_lt hp
  cases hf : p.find id' with
  | some j =>
    rw [findOrCreateIndex_of_find mkNew p id' j hf]
    have hj : (id', j) ∈ p.map := alistFind_mem hf
    have hji : j ≠ i := fun hc => hne (huniq _ hj hc)
    exact ⟨hfind, by simpa [List.getElem?_set_ne hji] using huse, hpool, huniq, hfree⟩
  | none =>
    cases hfr : p.free with
    | cons j rest =>
      rw [findOrCreateIndex_of_free mkNew p id' j rest hf hfr]
      have hji : j ≠ i := by
        intro hc
        rw [hfr, hc] at hfree
        exact hfree (List.mem_cons_self i rest)
      have hirest : i ∉ rest := by
        intro hc
        rw [hfr] at hfree
        exact hfree (List.mem_cons_of_mem j hc)
      refine ⟨?_, ?_, ?_, ?_, hirest⟩
      · show alistFind (alistInsert p.map id' j) id = some i
        rw [alistFind_insert_ne _ _ _ _ (fun hc => hne hc.symm)]
        exact hfind
      · simpa [List.getElem?_set_ne hji] using huse
      · simpa [List.getElem?_set_ne hji] using hpool
      · intro e he hei
        simp only [alistInsert, List.mem_cons] at he
        rcases he with he | he
        · rw [he] at hei
          exact absurd hei hji
        · exact huniq e (List.mem_of_mem_filter he) hei
    | nil =>
      rw [findOrCreateIndex_of_push mkNew p id' hf hfr]
      have hilen : i ≠ p.pool.length := Nat.ne_of_lt hipool
      have hiuse : i < p.in_use.length := by
        cases hu : p.in_use[i]? with
        | none => rw [hu] at huse; simp at huse
        | some b => exact getElem?_some_lt hu
      refine ⟨?_, ?_, ?_, ?_, hfree⟩
      · show alistFind (alistInsert p.map id' p.pool.length) id = some i
        rw [alistFind_insert_ne _ _ _ _ (fun hc => hne hc.symm)]
        exact hfind
      · show ((p.in_use ++ [false]).set p.pool.length true)[i]? = some false
        rw [List.getElem?_set_ne hilen.symm, List.getElem?_append_left hiuse]
        exact huse
      · show ((p.pool ++ [mkNew id'])[i]?).map getId = some id
        rw [List.getElem?_append_left hipool]
        exact hpool
      · intro e he hei
        simp only [alistInsert, List.mem_cons] at he
        rcases he with he | he
        · rw [he] at hei
          exact absurd hei.symm hilen
        · exact huniq e (List.mem_of_mem_filter he) hei

theorem slotReserved_declareAll {T : Type} (getId : T → Nat) (mkNew : Nat → T)
    {id i : Nat} (ids : List Nat) {p : ObjectPool T} (h : SlotReserved getId id i p)
    (hid : id ∉ ids) : SlotReserved getId id i (p.declareAll mkNew ids) := by
  induction ids generalizing p with
  | nil => exact h
  | cons a t ih =>
    have hne : a ≠ id := fun hc => hid (by rw [hc]; exact List.mem_cons_self id t)
    have hid' : id ∉ t := fun hc => hid (List.mem_cons_of_mem a hc)
    exact ih (slotReserved_findOrCreate getId mkNew h a hne) hid'

theorem updateFold_find_none {T : Type} (getId : T → Nat) (id : Nat)
    (l : List (Nat × Bool × T)) (acc : List (Nat × Nat) × List Nat)
    (h : (∃ x ∈ l, x.2.1 = false ∧ getId x.2.2 = id) ∨ alistFind acc.1 id = none) :
    alistFind (l.foldl (poolUpdateStep getId) acc).1 id = none := by
  induction l generalizing acc with
  | nil =>
    rcases h with ⟨x, hx, _⟩ | h
    · exact absurd hx (List.not_mem_nil x)
    · exact h
  | cons x t ih =>
    rw [List.foldl_cons]
    rcases h with ⟨y, hy, hy1, hy2⟩ | h
    · rcases List.mem_cons.mp hy with rfl | hyt
      · rw [poolUpdateStep, hy1]
        simp only [Bool.false_eq_true, if_false, hy2]
        exact ih _ (Or.inr (alistFind_remove_self _ _))
      · exact ih _ (Or.inl ⟨y, hyt, hy1, hy2⟩)
    · refine ih _ (Or.inr ?_)
      unfold poolUpdateStep
      split
      · exact h
      · exact alistFind_remove_of_none _ _ _ h

theorem update_find_none {T : Type} (getId : T → Nat) {id i : Nat} {p : ObjectPool T}
    (h : SlotReserved getId id i p) : (p.update getId).find id = none := by
  obtain ⟨_, huse, hpool, _, _⟩ := h
  obtain ⟨obj, hobj, hobjid⟩ : ∃ o, p.pool[i]? = some o ∧ getId o = id := by
    cases hp : p.pool[i]? with
    | none => rw [hp] at hpool; simp at hpool
    | some o =>
      rw [hp] at hpool
      simp at hpool
      exact ⟨o, rfl, hpool⟩
  have hzip : (p.in_use.zip p.pool)[i]? = some (false, obj) :=
    List.getElem?_zip_eq_some.mpr ⟨huse, hobj⟩
  have hmem : (i, (false, obj)) ∈ (p.in_use.zip p.pool).enum :=
    List.mem_enum_iff_getElem?.mpr hzip
  show alistFind ((p.in_use.zip p.pool).enum.foldl (poolUpdateStep getId) (p.map, [])).1 id = none
  exact updateFold_find_none getId id _ _ (Or.inl ⟨(i, (false, obj)), hmem, rfl, hobjid⟩)

theorem updateFold_free_mem {T : Type} (getId : T → Nat) (l : List (Nat × Bool × T))
    (acc : List (Nat × Nat) × List Nat) (j : Nat)
    (h : j ∈ (l.foldl (poolUpdateStep getId) acc).2) :
    j ∈ acc.2 ∨ ∃ x ∈ l, x.1 = j := by
  induction l generalizing acc with
  | nil => exact Or.inl h
  | cons x t ih =>
    rw [List.foldl_cons] at h
    rcases ih _ h with hacc | ⟨y, hy, hyj⟩
    · unfold poolUpdateStep at hacc
      split at hacc
      · exact Or.inl hacc
      · rcases List.mem_cons.mp hacc with rfl | hacc
        · exact Or.inr ⟨x, List.mem_cons_self x t, rfl⟩
        · exact Or.inl hacc
    · exact Or.inr ⟨y, List.mem_cons_of_mem x hy, hyj⟩

theorem update_free_lt {T : Type} (getId : T → Nat) (p : ObjectPool T) :
    ∀ j ∈ (p.update getId).free, j < p.pool.length := by
  intro j hj
  have := updateFold_free_mem getId _ _ j hj
  rcases this with h | ⟨x, hx, hxj⟩
  · exact absurd h (List.not_mem_nil j)
  · have := List.mem_enum_iff_getElem?.mp hx
    have hlt : x.1 < (p.in_use.zip p.pool).length := getElem?_some_lt this
    rw [List.length_zip] at hlt
    rw [← hxj]
    exact lt_of_lt_of_le hlt (Nat.min_le_right _ _)

theorem findOrCreate_fresh {T : Type} (mkNew : Nat → T) (p : ObjectPool T) (id : Nat)
    (hnone : p.find id = none) (hfree : ∀ j ∈ p.free, j < p.pool.length) :
    ((p.findOrCreateIndex mkNew id).2).pool[(p.findOrCreateIndex mkNew id).1]? =
      some (mkNew id) := by
  cases hfr : p.free with
  | cons j rest =>
    rw [findOrCreateIndex_of_free mkNew p id j rest hnone hfr]
    have hj : j < p.pool.length := hfree j (by rw [hfr]; exact List.mem_cons_self j rest)
    exact List.getElem?_set_eq_of_lt (mkNew id) hj
  | nil =>
    rw [findOrCreateIndex_of_push mkNew p id hnone hfr]
    exact List.getElem?_concat_length p.pool (mkNew id)

theorem slotReserved_of_reset {T : Type} (getId : T → Nat) {id i : Nat} {p : ObjectPool T}
    (hWF : p.WF getId) (hlive : p.find id = some i) : SlotReserved getId id i p.reset := by
  obtain ⟨hmap, hpair, hfree, hlen⟩ := hWF
  have hmem : (id, i) ∈ p.map := alistFind_mem hlive
  have hpool := hmap _ hmem
  have hipool : i < p.pool.length := by
    cases hp : p.pool[i]? with
    | none => rw [hp] at hpool; simp at hpool
    | some o => exact getElem?_some_lt hp
  have hiuse : i < p.in_use.length := by rw [hlen]; exact hipool
  refine ⟨hlive, ?_, hpool, ?_, ?_⟩
  · show (p.in_use.map (fun _ => false))[i]? = some false
    rw [List.getElem?_map]
    cases hu : p.in_use[i]? with
    | none =>
      have := List.getElem?_eq_none_iff.mp hu
      omega
    | some b => simp
  · intro e he hei
    by_cases hc : e = (id, i)
    · rw [hc]
    · have hsym : Symmetric (fun a b : Nat × Nat => a.1 ≠ b.1 ∧ a.2 ≠ b.2) := by
        intro a b hab
        exact ⟨hab.1.symm, hab.2.symm⟩
      have := hpair.forall hsym he hmem hc
      exact absurd hei this.2
  · intro hc
    exact absurd ((hfree i hc).2 (id, i) hmem rfl) (by simp)

/-- C4: an id live in frame N and not declared in frame N+1 is gone from
`find` after frame N+1's reclaim, and a later `find_or_create_index` for that
id produces a freshly `new`-initialized entity in its slot. -/
theorem pool_reclaim_and_fresh {T : Type} (getId : T → Nat) (mkNew : Nat → T)
    (p : ObjectPool T) (id i : Nat) (ids : List Nat)
    (hWF : p.WF getId) (hlive : p.find id = some i) (hid : id ∉ ids) :
    (p.frame getId mkNew ids).find id = none ∧
      ((p.frame getId mkNew ids).findOrCreateIndex mkNew id).2.pool[
          ((p.frame getId mkNew ids).findOrCreateIndex mkNew id).1]? = some (mkNew id) := by
  have hres : SlotReserved getId id i ((p.reset).declareAll mkNew ids) :=
    slotReserved_declareAll getId mkNew ids (slotReserved_of_reset getId hWF hlive) hid
  have hnone : (p.frame getId mkNew ids).find id = none := update_find_none getId hres
  refine ⟨hnone, ?_⟩
  have hpool : (p.frame getId mkNew ids).pool = ((p.reset).declareAll mkNew ids).pool := rfl
  have hfree : ∀ j ∈ (p.frame getId mkNew ids).free,
      j < (p.frame getId mkNew ids).pool.length := by
    intro j hj
    rw [hpool]
    exact update_free_lt getId _ j hj
  exact findOrCreate_fresh mkNew _ id hnone hfree

/-- Concrete pool for the C4 witness: one live entity with id 5 in slot 0. -/
def poolW : ObjectPool Nat := ⟨[5], [true], [], [(5, 0)]⟩

theorem pool_reclaim_and_fresh_witness :
    ((poolW.frame (fun t => t) (fun n => n) [7]).find 5 = none) ∧
      ((poolW.frame (fun t => t) (fun n => n) [7]).findOrCreateIndex (fun n => n) 5).2.pool[
          ((poolW.frame (fun t => t) (fun n => n) [7]).findOrCreateIndex (fun n => n) 5).1]? =
        some 5 :=
  pool_reclaim_and_fresh (fun t => t) (fun n => n) poolW 5 0 [7] (by decide) (by decide)
    (by decide)

/-! ### Entity model (`node.rs`, `pin.rs`, `link.rs`)

Fields that exist only for painting (colors, `ShapeIdx` handles, pin shapes,
title-bar geometry) are omitted: no embedded operation reads them. -/

inductive AttributeType where
  | none
  | input
  | output
deriving DecidableEq

inductive ClickInteractionType where
  | node
  | link
  | linkCreation
  | panning
  | boxSelection
  | none
deriving DecidableEq

inductive LinkCreationType where
  | standard
  | fromDetach
deriving DecidableEq

structure PinData where
  id : Nat
  parent_node_idx : Nat
  attribute_rect : Rect
  kind : AttributeType
  pos : Pos2
  flags : Nat
deriving DecidableEq

def PinData.new (id : Nat) : PinData :=
  { id := id
    parent_node_idx := 0
    attribute_rect := ⟨⟨0, 0⟩, ⟨0, 0⟩⟩
    kind := AttributeType.none
    pos := ⟨0, 0⟩
    flags := 0 }

structure LinkData where
  id : Nat
  start_pin_index : Nat
  end_pin_index : Nat
deriving DecidableEq

def LinkData.new (id : Nat) : LinkData :=
  { id := id, start_pin_index := 0, end_pin_index := 0 }

/-- `impl PartialEq for LinkData`: equality of the unordered pin-index pairs
(each side's pair is sorted before comparing). -/
def LinkData.linkEq (lhs rhs : LinkData) : Bool :=
  let ls := if lhs.start_pin_index > lhs.end_pin_index then lhs.end_pin_index
            else lhs.start_pin_index
  let le := if lhs.start_pin_index > lhs.end_pin_index then lhs.start_pin_index
            else lhs.end_pin_index
  let rs := if rhs.start_pin_index > rhs.end_pin_index then rhs.end_pin_index
            else rhs.start_pin_index
  let re := if rhs.start_pin_index > rhs.end_pin_index then rhs.start_pin_index
            else rhs.end_pin_index
  ls == rs && le == re

structure NodeData where
  id : Nat
  origin : Pos2
  size : Pos2
  rect : Rect
  pin_indices : List Nat
  draggable : Bool
deriving DecidableEq

def NodeData.new (id : Nat) : NodeData :=
  { id := id
    origin := ⟨100, 100⟩
    size := ⟨100, 100⟩
    rect := ⟨⟨0, 0⟩, ⟨0, 0⟩⟩
    pin_indices := []
    draggable := true }

/-! ### The editor context (`struct Context` in `lib.rs`) -/

structure Context where
  nodes : ObjectPool NodeData
  pins : ObjectPool PinData
  links : ObjectPool LinkData
  nodeDepthOrder : List Nat
  canvasOriginScreenSpace : Pos2
  panning : Pos2
  occludedPinIndices : List Nat
  nodeIndicesOverlappingWithMouse : List Nat
  hoveredNodeIndex : Option Nat
  interactiveNodeIndex : Option Nat
  hoveredLinkIdx : Option Nat
  hoveredPinIndex : Option Nat
  hoveredPinFlags : Nat
  deletedLinkIdx : Option Nat
  snapLinkIdx : Option Nat
  elementStateChange : Nat
  activeAttribute : Bool
  mousePos : Pos2
  mouseDelta : Pos2
  leftMouseClicked : Bool
  leftMouseReleased : Bool
  altMouseClicked : Bool
  leftMouseDragging : Bool
  altMouseDragging : Bool
  mouseInCanvas : Bool
  linkDetatchWithModifierClick : Bool
  selectedNodeIndices : List Nat
  selectedLinkIndices : List Nat
  clickInteractionType : ClickInteractionType
  boxSelection : Rect
  linkCreationStartPinIdx : Nat
  linkCreationEndPinIndex : Option Nat
  linkCreationType : LinkCreationType
  pinHoverRadius : ℚ
  linkHoverDistance : ℚ
  linkLineSegmentsPerLength : ℚ
  pinOffset : ℚ

def Context.screenSpaceToGridSpace (c : Context) (v : Pos2) : Pos2 :=
  ⟨v.x - c.canvasOriginScreenSpace.x - c.panning.x,
   v.y - c.canvasOriginScreenSpace.y - c.panning.y⟩

/-- `Context::node_pool_find_or_create_index`: like the generic pool version,
but a newly created slot is also appended to the back of the depth order, and
a caller-supplied initial position overrides the default origin. -/
def Context.nodePoolFindOrCreateIndex (c : Context) (id : Nat) (origin : Option Pos2) :
    Nat × Context :=
  match c.nodes.find id with
  | some index =>
      (index, { c with nodes := { c.nodes with in_use := c.nodes.in_use.set index true } })
  | none =>
    let newNode :=
      match origin with
      | some o => { NodeData.new id with origin := c.screenSpaceToGridSpace o }
      | none => NodeData.new id
    match c.nodes.free with
    | index :: rest =>
        (index,
          { c with
            nodes := { c.nodes with
                       pool := c.nodes.pool.set index newNode
                       free := rest
                       map := alistInsert c.nodes.map id index
                       in_use := c.nodes.in_use.set index true }
            nodeDepthOrder := c.nodeDepthOrder ++ [index] })
    | [] =>
        (c.nodes.pool.length,
          { c with
            nodes := { c.nodes with
                       pool := c.nodes.pool ++ [newNode]
                       in_use := (c.nodes.in_use ++ [false]).set c.nodes.pool.length true
                       map := alistInsert c.nodes.map id c.nodes.pool.length }
            nodeDepthOrder := c.nodeDepthOrder ++ [c.nodes.pool.length] })

/-- One iteration of `Context::node_pool_update`'s loop for a slot that the
fold visits; the accumulator is (map, free, depth order).  For a not-in-use
slot the depth order is purged of the slot index only when the map still
contains the slot's (possibly stale) id. -/
def nodeUpdateStep (acc : List (Nat × Nat) × List Nat × List Nat)
    (x : Nat × Bool × NodeData) : List (Nat × Nat) × List Nat × List Nat :=
  if x.2.1 then acc
  else
    let depth :=
      if (alistFind acc.1 x.2.2.id).isSome then acc.2.2.filter (fun y => y ≠ x.1)
      else acc.2.2
    (alistRemove acc.1 x.2.2.id, x.1 :: acc.2.1, depth)

def Context.nodePoolUpdate (c : Context) : Context :=
  let res := (c.nodes.in_use.zip c.nodes.pool).enum.foldl nodeUpdateStep
    (c.nodes.map, [], c.nodeDepthOrder)
  let newPool := (c.nodes.pool.zip c.nodes.in_use).map
    (fun y => if y.2 then { y.1 with pin_indices := ([] : List Nat) } else y.1)
  { c with
    nodes := { c.nodes with pool := newPool, map := res.1, free := res.2.1 }
    nodeDepthOrder := res.2.2 }

/-- The per-frame reset block at the top of `Context::show`. -/
def Context.resetFrameState (c : Context) : Context :=
  { c with
    nodes := c.nodes.reset
    pins := c.pins.reset
    links := c.links.reset
    hoveredNodeIndex := Option.none
    interactiveNodeIndex := Option.none
    hoveredLinkIdx := Option.none
    hoveredPinFlags := 0
    deletedLinkIdx := Option.none
    snapLinkIdx := Option.none
    nodeIndicesOverlappingWithMouse := []
    elementStateChange := 0
    activeAttribute := false }

/-- The node-identity part of one `show` frame with the pointer away from the
canvas and no buttons pressed: reset, `node_pool_find_or_create_index` each
declared node id (no explicit position), then reclaim all three pools.  With
no pointer input, hover resolution, `begin_canvas_interaction` and
`click_interaction_update` (in state `None`) leave the state untouched, so
they are elided. -/
def Context.showFrameNodes (c : Context) (ids : List Nat) : Context :=
  let c1 := c.resetFrameState
  let c2 := ids.foldl (fun cc id => (cc.nodePoolFindOrCreateIndex id Option.none).2) c1
  let c3 := c2.nodePoolUpdate
  { c3 with
    pins := c3.pins.update PinData.id
    links := c3.links.update LinkData.id }

def emptyPool (T : Type) : ObjectPool T := ⟨[], [], [], []⟩

/-- `Context::default()` restricted to the embedded fields (style values from
`Style::default()`). -/
def defaultContext : Context :=
  { nodes := emptyPool NodeData
    pins := emptyPool PinData
    links := emptyPool LinkData
    nodeDepthOrder := []
    canvasOriginScreenSpace := ⟨0, 0⟩
    panning := ⟨0, 0⟩
    occludedPinIndices := []
    nodeIndicesOverlappingWithMouse := []
    hoveredNodeIndex := Option.none
    interactiveNodeIndex := Option.none
    hoveredLinkIdx := Option.none
    hoveredPinIndex := Option.none
    hoveredPinFlags := 0
    deletedLinkIdx := Option.none
    snapLinkIdx := Option.none
    elementStateChange := 0
    activeAttribute := false
    mousePos := ⟨0, 0⟩
    mouseDelta := ⟨0, 0⟩
    leftMouseClicked := false
    leftMouseReleased := false
    altMouseClicked := false
    leftMouseDragging := false
    altMouseDragging := false
    mouseInCanvas := false
    linkDetatchWithModifierClick := false
    selectedNodeIndices := []
    selectedLinkIndices := []
    clickInteractionType := ClickInteractionType.none
    boxSelection := ⟨⟨0, 0⟩, ⟨0, 0⟩⟩
    linkCreationStartPinIdx := 0
    linkCreationEndPinIndex := Option.none
    linkCreationType := LinkCreationType.standard
    pinHoverRadius := 10
    linkHoverDistance := 10
    linkLineSegmentsPerLength := 1 / 10
    pinOffset := 0 }

/-- C1: the depth-order invariant fails.  Running the five node-declaration
frames {10,20}, {}, {10}, {}, {30} from a fresh context leaves slot 1 (the
one live node, id 30) listed twice in the depth order: frame 3 resurrects
slot 1 for id 10 while stale slot 0 still carries id 10, so reclaiming slot 0
erases the fresh id 10 mapping; in frame 4 neither unused slot's id is mapped
any more, the `contains_key` guard fails, and reclaimed slot 1 is never
removed from the depth order; frame 5 then appends slot 1 again. -/
theorem depth_order_duplicate_bug :
    (((((defaultContext.showFrameNodes [10, 20]).showFrameNodes []).showFrameNodes
          [10]).showFrameNodes []).showFrameNodes [30]).nodeDepthOrder = [1, 1] ∧
      (((((defaultContext.showFrameNodes [10, 20]).showFrameNodes []).showFrameNodes
            [10]).showFrameNodes []).showFrameNodes [30]).nodes.in_use = [false, true] := by
  decide

/-! ### Hit-test resolution: occluded pins and hovered pin (`lib.rs`) -/

/-- `Context::resolve_occluded_pins`: for every depth pair (below, above) the
pins of the lower node whose position lies inside the higher node's rect are
collected, in loop order. -/
def Context.resolveOccludedPins (c : Context) : Context :=
  let ds := c.nodeDepthOrder
  let occluded :=
    if ds.length < 2 then []
    else
      (List.range (ds.length - 1)).flatMap (fun depthIdx =>
        let nodeBelow := c.nodes.pool.getD (ds.getD depthIdx 0) (NodeData.new 0)
        (ds.drop (depthIdx + 1)).flatMap (fun nextDepth =>
          let rectAbove := (c.nodes.pool.getD nextDepth (NodeData.new 0)).rect
          nodeBelow.pin_indices.filter (fun idx =>
            rectAbove.containsP ((c.pins.pool.getD idx (PinData.new 0)).pos))))
  { c with occludedPinIndices := occluded }

/-- Squared distance from a pin to the pointer. -/
def pinDistSq (c : Context) (idx : Nat) : ℚ :=
  distSq (c.pins.pool.getD idx (PinData.new 0)).pos c.mousePos

/-- One iteration of `Context::resolve_hovered_pin`'s loop.  The accumulator
`none` models the initial `smallest_distance = f32::MAX` with no hovered pin
(every actual squared distance is below `f32::MAX`). -/
def pinHoverStep (c : Context) (acc : Option (ℚ × Nat)) (idx : Nat) : Option (ℚ × Nat) :=
  if !(c.pins.in_use.getD idx false) || c.occludedPinIndices.contains idx then acc
  else
    let distanceSqr := pinDistSq c idx
    let smaller :=
      match acc with
      | Option.none => true
      | some b => decide (distanceSqr < b.1)
    if decide (distanceSqr < c.pinHoverRadius * c.pinHoverRadius) && smaller then
      some (distanceSqr, idx)
    else acc

def Context.resolveHoveredPin (c : Context) : Context :=
  { c with
    hoveredPinIndex :=
      ((List.range c.pins.pool.length).foldl (pinHoverStep c) Option.none).map
        (fun r => r.2) }

/-- A pin the hover loop may accept: in use, not occluded, within hover
radius. -/
def pinCandidate (c : Context) (idx : Nat) : Prop :=
  c.pins.in_use.getD idx false = true ∧
  idx ∉ c.occludedPinIndices ∧
  pinDistSq c idx < c.pinHoverRadius * c.pinHoverRadius

instance (c : Context) (idx : Nat) : Decidable (pinCandidate c idx) := by
  unfold pinCandidate
  infer_instance

/-- Invariant of the hover fold after scanning slots `< k`. -/
def HoverAcc (c : Context) (k : Nat) (acc : Option (ℚ × Nat)) : Prop :=
  (acc = Option.none ∧ ∀ j, j < k → ¬pinCandidate c j) ∨
  (∃ i, acc = some (pinDistSq c i, i) ∧ i < k ∧ pinCandidate c i ∧
    (∀ j, j < k → pinCandidate c j → pinDistSq c i ≤ pinDistSq c j) ∧
    (∀ j, j < k → pinCandidate c j → pinDistSq c j = pinDistSq c i → i ≤ j))

theorem pinHoverStep_not_candidate (c : Context) (acc : Option (ℚ × Nat)) (k : Nat)
    (h : ¬pinCandidate c k) : pinHoverStep c acc k = acc := by
  unfold pinHoverStep
  by_cases h1 : (!(c.pins.in_use.getD k false) || c.occludedPinIndices.contains k) = true
  · rw [if_pos h1]
  · rw [if_neg h1]
    simp only [Bool.or_eq_true, Bool.not_eq_true', not_or] at h1
    have hr : ¬(pinDistSq c k < c.pinHoverRadius * c.pinHoverRadius) := by
      intro hc
      refine h ⟨?_, ?_, hc⟩
      · cases hx : c.pins.in_use.getD k false with
        | true => rfl
        | false => exact absurd hx h1.1
      · intro hmem
        exact h1.2 (List.elem_iff.mpr hmem)
    simp [hr]

theorem hoverAcc_step (c : Context) (k : Nat) (acc : Option (ℚ × Nat))
    (h : HoverAcc c k acc) : HoverAcc c (k + 1) (pinHoverStep c acc k) := by
  by_cases hk : pinCandidate c k
  · obtain ⟨hu, ho, hd⟩ := hk
    have hskip : (!(c.pins.in_use.getD k false) || c.occludedPinIndices.contains k) = false := by
      rw [hu]
      simp only [Bool.not_true, Bool.false_or]
      exact eq_false_of_ne_true (fun hc => ho (List.elem_iff.mp hc))
    rcases h with ⟨rfl, hnone⟩ | ⟨i, rfl, hik, hic, hmin, htie⟩
    · refine Or.inr ⟨k, ?_, Nat.lt_succ_self k, ⟨hu, ho, hd⟩, ?_, ?_⟩
      · unfold pinHoverStep
        rw [hskip]
        simp [hd]
      · intro j hj hcand
        rcases Nat.lt_succ_iff_lt_or_eq.mp hj with hj | rfl
        · exact absurd hcand (hnone j hj)
        · exact le_refl _
      · intro j hj hcand _
        rcases Nat.lt_succ_iff_lt_or_eq.mp hj with hj | rfl
        · exact absurd hcand (hnone j hj)
        · exact le_refl _
    · by_cases hlt : pinDistSq c k < pinDistSq c i
      · refine Or.inr ⟨k, ?_, Nat.lt_succ_self k, ⟨hu, ho, hd⟩, ?_, ?_⟩
        · unfold pinHoverStep
          rw [hskip]
          simp [hd, hlt]
        · intro j hj hcand
          rcases Nat.lt_succ_iff_lt_or_eq.mp hj with hj | rfl
          · exact le_of_lt (lt_of_lt_of_le hlt (hmin j hj hcand))
          · exact le_refl _
        · intro j hj hcand htiej
          rcases Nat.lt_succ_iff_lt_or_eq.mp hj with hj | rfl
          · have := hmin j hj hcand
            rw [htiej] at this
            exact absurd hlt (not_lt_of_le this)
          · exact le_refl _
      · refine Or.inr ⟨i, ?_, Nat.lt_succ_of_lt hik, hic, ?_, ?_⟩
        · unfold pinHoverStep
          rw [hskip]
          simp [hd, hlt]
        · intro j hj hcand
          rcases Nat.lt_succ_iff_lt_or_eq.mp hj with hj | rfl
          · exact hmin j hj hcand
          · exact le_of_not_lt hlt
        · intro j hj hcand htiej
          rcases Nat.lt_succ_iff_lt_or_eq.mp hj with hj | rfl
          · exact htie j hj hcand htiej
          · exact Nat.le_of_lt hik
  · rw [pinHoverStep_not_candidate c acc k hk]
    rcases h with ⟨rfl, hnone⟩ | ⟨i, rfl, hik, hic, hmin, htie⟩
    · refine Or.inl ⟨rfl, ?_⟩
      intro j hj
      rcases Nat.lt_succ_iff_lt_or_eq.mp hj with hj | rfl
      · exact hnone j hj
      · exact hk
    · refine Or.inr ⟨i, rfl, Nat.lt_succ_of_lt hik, hic, ?_, ?_⟩
      · intro j hj hcand
        rcases Nat.lt_succ_iff_lt_or_eq.mp hj with hj | rfl
        · exact hmin j hj hcand
        · exact absurd hcand hk
      · intro j hj hcand htiej
        rcases Nat.lt_succ_iff_lt_or_eq.mp hj with hj | rfl
        · exact htie j hj hcand htiej
        · exact absurd hcand hk

theorem hoverAcc_range (c : Context) (n : Nat) :
    HoverAcc c n ((List.range n).foldl (pinHoverStep c) Option.none) := by
  induction n with
  | zero => exact Or.inl ⟨rfl, by omega⟩
  | succ m ih =>
    rw [List.range_succ, List.foldl_append, List.foldl_cons, List.foldl_nil]
    exact hoverAcc_step c m _ ih

theorem hoveredPin_characterization (c : Context) :
    (∀ i, (c.resolveHoveredPin).hoveredPinIndex = some i →
        i < c.pins.pool.length ∧ pinCandidate c i ∧
          (∀ j, j < c.pins.pool.length → pinCandidate c j →
            pinDistSq c i ≤ pinDistSq c j ∧ (pinDistSq c j = pinDistSq c i → i ≤ j))) ∧
      ((∃ j, j < c.pins.pool.length ∧ pinCandidate c j) →
        (c.resolveHoveredPin).hoveredPinIndex ≠ Option.none) := by
  have hacc := hoverAcc_range c c.pins.pool.length
  constructor
  · intro i hi
    unfold Context.resolveHoveredPin at hi
    rcases hacc with ⟨hnone, _⟩ | ⟨i', heq, hik, hic, hmin, htie⟩
    · rw [hnone] at hi
      exact Option.noConfusion hi
    · rw [heq] at hi
      simp only [Option.map_some'] at hi
      have hii : i' = i := Option.some.inj hi
      subst hii
      exact ⟨hik, hic, fun j hj hc => ⟨hmin j hj hc, htie j hj hc⟩⟩
  · rintro ⟨j, hj, hcand⟩
    unfold Context.resolveHoveredPin
    rcases hacc with ⟨_, hnone⟩ | ⟨i', heq, _, _, _, _⟩
    · exact absurd hcand (hnone j hj)
    · simp [heq]

/-- C2: a pin of a node at a lower depth position whose stored position lies
inside the rect of a node at a higher depth position is collected by
`resolve_occluded_pins`, and `resolve_hovered_pin` (which skips occluded
pins) never resolves it, whatever its distance to the pointer. -/
theorem occluded_pin_not_hovered (c : Context) (da db na nb pinIdx : Nat)
    (hda : c.nodeDepthOrder[da]? = some na) (hdb : c.nodeDepthOrder[db]? = some nb)
    (hlt : da < db)
    (hpin : pinIdx ∈ (c.nodes.pool.getD na (NodeData.new 0)).pin_indices)
    (hcont : ((c.nodes.pool.getD nb (NodeData.new 0)).rect).containsP
        ((c.pins.pool.getD pinIdx (PinData.new 0)).pos) = true) :
    pinIdx ∈ (c.resolveOccludedPins).occludedPinIndices ∧
      ((c.resolveOccludedPins).resolveHoveredPin).hoveredPinIndex ≠ some pinIdx := by
  have hdb_lt : db < c.nodeDepthOrder.length := getElem?_some_lt hdb
  have hmem : pinIdx ∈ (c.resolveOccludedPins).occludedPinIndices := by
    show pinIdx ∈
      (if c.nodeDepthOrder.length < 2 then []
       else
        (List.range (c.nodeDepthOrder.length - 1)).flatMap (fun depthIdx =>
          let nodeBelow := c.nodes.pool.getD (c.nodeDepthOrder.getD depthIdx 0) (NodeData.new 0)
          (c.nodeDepthOrder.drop (depthIdx + 1)).flatMap (fun nextDepth =>
            let rectAbove := (c.nodes.pool.getD nextDepth (NodeData.new 0)).rect
            nodeBelow.pin_indices.filter (fun idx =>
              rectAbove.containsP ((c.pins.pool.getD idx (PinData.new 0)).pos)))))
    have h2 : ¬(c.nodeDepthOrder.length < 2) := by omega
    rw [if_neg h2, List.mem_flatMap]
    refine ⟨da, List.mem_range.mpr (by omega), ?_⟩
    rw [List.mem_flatMap]
    refine ⟨nb, ?_, ?_⟩
    · have hdrop : (c.nodeDepthOrder.drop (da + 1))[db - (da + 1)]? = some nb := by
        rw [List.getElem?_drop]
        have : da + 1 + (db - (da + 1)) = db := by omega
        rw [this]
        exact hdb
      exact List.getElem?_mem hdrop
    · have hgetD : c.nodeDepthOrder.getD da 0 = na := by
        rw [List.getD_eq_getElem?_getD, hda]
        rfl
      rw [List.mem_filter, hgetD]
      exact ⟨hpin, hcont⟩
  refine ⟨hmem, ?_⟩
  intro hc
  obtain ⟨_, hcand, _⟩ :=
    (hoveredPin_characterization (c.resolveOccludedPins)).1 pinIdx hc
  exact hcand.2.1 hmem

/-- Witness context for C2: node slot 0 (behind) owns pin 0 at (5,5); node
slot 1 (in front) has a rect covering (5,5); the pointer sits exactly on the
pin. -/
def ctxOcc : Context :=
  { defaultContext with
    nodes :=
      ⟨[{ NodeData.new 1 with pin_indices := [0], rect := ⟨⟨0, 0⟩, ⟨4, 4⟩⟩ },
        { NodeData.new 2 with rect := ⟨⟨0, 0⟩, ⟨10, 10⟩⟩ }],
       [true, true], [], [(1, 0), (2, 1)]⟩
    pins := ⟨[{ PinData.new 7 with pos := ⟨5, 5⟩ }], [true], [], [(7, 0)]⟩
    nodeDepthOrder := [0, 1]
    mousePos := ⟨5, 5⟩ }

theorem occluded_pin_not_hovered_witness :
    0 ∈ (ctxOcc.resolveOccludedPins).occludedPinIndices ∧
      ((ctxOcc.resolveOccludedPins).resolveHoveredPin).hoveredPinIndex ≠ some 0 :=
  occluded_pin_not_hovered ctxOcc 0 1 0 1 0 (by decide) (by decide) (by decide) (by decide)
    (by decide)

/-- Tie context for C6: pins 0 and 1 both at squared distance 1 from the
pointer, both in use, none occluded. -/
def ctxTie : Context :=
  { defaultContext with
    pins :=
      ⟨[{ PinData.new 1 with pos := ⟨0, 1⟩ }, { PinData.new 2 with pos := ⟨0, -1⟩ }],
       [true, true], [], [(1, 0), (2, 1)]⟩
    mousePos := ⟨0, 0⟩ }

/-- C6 counterexample: with two candidate pins at exactly equal smallest
distance, `resolve_hovered_pin` returns the FIRST scanned (lowest pool
index 0), refuting the claim that the last-scanned tied pin (index 1) wins. -/
theorem pin_hover_tie_first_scanned :
    (ctxTie.resolveHoveredPin).hoveredPinIndex = some 0 ∧
      pinCandidate ctxTie 0 ∧ pinCandidate ctxTie 1 ∧
      pinDistSq ctxTie 0 = pinDistSq ctxTie 1 := by
  simp [ctxTie, defaultContext, emptyPool, Context.resolveHoveredPin, pinHoverStep,
    pinCandidate, pinDistSq, distSq, Pos2.sub, Pos2.lengthSq, PinData.new,
    List.range_succ]
  norm_num

theorem ctxTie_resolves_pin_zero :
    (ctxTie.resolveHoveredPin).hoveredPinIndex = some 0 := by
  simp [ctxTie, defaultContext, emptyPool, Context.resolveHoveredPin, pinHoverStep,
    pinDistSq, distSq, Pos2.sub, Pos2.lengthSq, PinData.new, List.range_succ]
  norm_num

/-- C6 (amended): among in-use, non-occluded pins within the hover radius the
resolved pin minimizes the squared pointer distance, and an exact tie is won
by the pin scanned first (lowest pool index); some pin is resolved whenever a
candidate exists. -/
theorem resolveHoveredPin_min_first (c : Context) :
    (∀ i, (c.resolveHoveredPin).hoveredPinIndex = some i →
        i < c.pins.pool.length ∧ pinCandidate c i ∧
          (∀ j, j < c.pins.pool.length → pinCandidate c j →
            pinDistSq c i ≤ pinDistSq c j ∧ (pinDistSq c j = pinDistSq c i → i ≤ j))) ∧
      ((∃ j, j < c.pins.pool.length ∧ pinCandidate c j) →
        (c.resolveHoveredPin).hoveredPinIndex ≠ Option.none) :=
  hoveredPin_characterization c

theorem resolveHoveredPin_min_first_witness :
    0 < ctxTie.pins.pool.length ∧ pinCandidate ctxTie 0 ∧
      (∀ j, j < ctxTie.pins.pool.length → pinCandidate ctxTie j →
        pinDistSq ctxTie 0 ≤ pinDistSq ctxTie j ∧
          (pinDistSq ctxTie j = pinDistSq ctxTie 0 → 0 ≤ j)) :=
  (resolveHoveredPin_min_first ctxTie).1 0 ctxTie_resolves_pin_zero

/-! ### Segment/rectangle intersection (`link.rs`) -/

/-- The min/max coordinate swap the source inlines wherever a rect may have
reversed corners. -/
def Rect.normalized (r : Rect) : Rect :=
  let r1 :=
    if r.min.x > r.max.x then Rect.mk ⟨r.max.x, r.min.y⟩ ⟨r.min.x, r.max.y⟩ else r
  if r1.min.y > r1.max.y then Rect.mk ⟨r1.min.x, r1.max.y⟩ ⟨r1.max.x, r1.min.y⟩ else r1

def Rect.leftBottom (r : Rect) : Pos2 := ⟨r.min.x, r.max.y⟩

def Rect.leftTop (r : Rect) : Pos2 := ⟨r.min.x, r.min.y⟩

def Rect.rightBottom (r : Rect) : Pos2 := ⟨r.max.x, r.max.y⟩

def Rect.rightTop (r : Rect) : Pos2 := ⟨r.max.x, r.min.y⟩

/-- `f32::signum`: 1 for positive values and +0.0, -1 for negatives.  Exact
rationals have a single zero, which the embedded inputs only reach through
products of nonnegative values, matching +0.0. -/
def signumF (q : ℚ) : ℚ := if q ≥ 0 then 1 else -1

/-- `f32::EPSILON` = 2^(-23). -/
def f32Epsilon : ℚ := 1 / 8388608

/-- `eval_inplicit_line_eq` from `link.rs`, verbatim: note the products
`p2.y * p1.y` and `p1.x * p2.x` and the product with the constant term. -/
def evalInplicitLineEq (p1 p2 p : Pos2) : ℚ :=
  (p2.y * p1.y) * p.x + (p1.x * p2.x) * p.y * (p2.x * p1.y - p1.x * p2.y)

/-- `rectangle_overlaps_line_segment` from `link.rs`. -/
def rectangleOverlapsLineSegment (rect : Rect) (p1 p2 : Pos2) : Bool :=
  if rect.containsP p1 || rect.containsP p2 then true
  else
    let flipRect := rect.normalized
    if (decide (p1.x < flipRect.min.x) && decide (p2.x < flipRect.min.x)) ||
       (decide (p1.x > flipRect.max.x) && decide (p2.x > flipRect.max.x)) ||
       (decide (p1.y < flipRect.min.y) && decide (p2.y < flipRect.min.y)) ||
       (decide (p1.y > flipRect.max.y) && decide (p2.y > flipRect.max.y)) then false
    else
      let cornerSigns : List ℚ :=
        [signumF (evalInplicitLineEq p1 p2 flipRect.leftBottom),
         signumF (evalInplicitLineEq p1 p2 flipRect.leftTop),
         signumF (evalInplicitLineEq p1 p2 flipRect.rightBottom),
         signumF (evalInplicitLineEq p1 p2 flipRect.rightTop)]
      let sum := cornerSigns.foldl (fun s x => s + x) 0
      let sumAbs := cornerSigns.foldl (fun s x => s + |x|) 0
      decide (|(|sum| - sumAbs)| < f32Epsilon)

/-- Ground truth for C9: some point of the segment from `p1` to `p2` lies in
the corner-normalized rectangle. -/
def SegmentMeetsRect (rect : Rect) (p1 p2 : Pos2) : Prop :=
  ∃ t : ℚ, 0 ≤ t ∧ t ≤ 1 ∧
    (rect.normalized).containsP
      ⟨p1.x + t * (p2.x - p1.x), p1.y + t * (p2.y - p1.y)⟩ = true

/-- C9: `rectangle_overlaps_line_segment` is not an intersection test.  For
the rectangle (1,0)-(4,4) and the horizontal segment (-2,2)-(6,2), which
passes straight through the rectangle, the function returns `false`: the
source's `eval_inplicit_line_eq` multiplies where the implicit line equation
subtracts (`p2.y * p1.y` for `p2.y - p1.y`, `p1.x * p2.x` for `p1.x - p2.x`)
and multiplies in the constant term instead of adding it, and the final
corner-sign test accepts when all corners are on one side instead of
rejecting. -/
theorem rectangleOverlapsLineSegment_wrong :
    rectangleOverlapsLineSegment ⟨⟨1, 0⟩, ⟨4, 4⟩⟩ ⟨-2, 2⟩ ⟨6, 2⟩ = false ∧
      SegmentMeetsRect ⟨⟨1, 0⟩, ⟨4, 4⟩⟩ ⟨-2, 2⟩ ⟨6, 2⟩ := by
  constructor
  · simp [rectangleOverlapsLineSegment, Rect.containsP, Rect.normalized, Rect.leftBottom,
      Rect.leftTop, Rect.rightBottom, Rect.rightTop, signumF, f32Epsilon,
      evalInplicitLineEq]
    norm_num
  · refine ⟨1 / 2, by norm_num, by norm_num, ?_⟩
    simp [Rect.containsP, Rect.normalized]
    norm_num

/-! ### Link curve geometry (`link.rs`).

`f32::sqrt` has no exact rational counterpart, so every definition that the
source computes from a square root takes the square-root function `sqrtQ` as
an explicit parameter; the theorems hold for every choice of `sqrtQ`. -/

structure BezierCurve where
  p0 : Pos2
  p1 : Pos2
  p2 : Pos2
  p3 : Pos2

def BezierCurve.eval (b : BezierCurve) (t : ℚ) : Pos2 :=
  ⟨(1 - t) ^ 3 * b.p0.x + 3 * (1 - t) ^ 2 * t * b.p1.x + 3 * (1 - t) * t ^ 2 * b.p2.x +
      t ^ 3 * b.p3.x,
   (1 - t) ^ 3 * b.p0.y + 3 * (1 - t) ^ 2 * t * b.p1.y + 3 * (1 - t) * t ^ 2 * b.p2.y +
      t ^ 3 * b.p3.y⟩

def BezierCurve.getContainingRectForBezierCurve (b : BezierCurve) (hoverDistance : ℚ) :
    Rect :=
  let mn : Pos2 := ⟨min b.p0.x b.p3.x, min b.p0.y b.p3.y⟩
  let mx : Pos2 := ⟨max b.p0.x b.p3.x, max b.p0.y b.p3.y⟩
  let mn2 : Pos2 := ⟨min (min mn.x b.p1.x) b.p2.x, min (min mn.y b.p1.y) b.p2.y⟩
  let mx2 : Pos2 := ⟨max (max mx.x b.p1.x) b.p2.x, max (max mx.y b.p1.y) b.p2.y⟩
  ⟨⟨mn2.x - hoverDistance, mn2.y - hoverDistance⟩,
   ⟨mx2.x + hoverDistance, mx2.y + hoverDistance⟩⟩

structure LinkBezierData where
  bezier : BezierCurve
  numSegments : Nat

/-- `f32 as usize`: truncation toward zero, negatives clamped to zero. -/
def ratToUsize (q : ℚ) : Nat := q.floor.toNat

def LinkBezierData.getLinkRenderable (sqrtQ : ℚ → ℚ) (p q : Pos2)
    (startType : AttributeType) (lineSegmentsPerLength : ℚ) : LinkBezierData :=
  let s := if startType = AttributeType.input then q else p
  let e := if startType = AttributeType.input then p else q
  let linkLength := sqrtQ (distSq e s)
  let offset : ℚ := (1 / 4) * linkLength
  { bezier := ⟨s, ⟨s.x + offset, s.y⟩, ⟨e.x - offset, e.y⟩, e⟩
    numSegments := max 1 (ratToUsize (linkLength * lineSegmentsPerLength)) }

/-- `line_closest_point` from `link.rs`.  The division by a zero
`ab_len_sqr` (degenerate segment) yields 0 in ℚ where f32 yields NaN. -/
def lineClosestPoint (a b p : Pos2) : Pos2 :=
  let ap := Pos2.sub p a
  let abDir := Pos2.sub b a
  let dot := ap.x * abDir.x + ap.y * abDir.y
  if dot < 0 then a
  else
    let abLenSqr := abDir.x * abDir.x + abDir.y * abDir.y
    if dot > abLenSqr then b
    else ⟨a.x + abDir.x * dot / abLenSqr, a.y + abDir.y * dot / abLenSqr⟩

def LinkBezierData.getClosestPointOnCubicBezier (ld : LinkBezierData) (p : Pos2) : Pos2 :=
  let tStep : ℚ := 1 / (ld.numSegments : ℚ)
  let res := (List.range' 1 (ld.numSegments - 1)).foldl
    (fun (acc : Pos2 × Pos2 × Option ℚ) i =>
      let pCurrent := ld.bezier.eval (tStep * (i : ℚ))
      let pLine := lineClosestPoint acc.1 pCurrent p
      let dist := distSq p pLine
      let closer :=
        match acc.2.2 with
        | Option.none => true
        | some d => decide (dist < d)
      if closer then (pCurrent, pLine, some dist) else (pCurrent, acc.2.1, acc.2.2))
    (ld.bezier.p0, ld.bezier.p0, Option.none)
  res.2.1

def LinkBezierData.getDistanceToCubicBezier (ld : LinkBezierData) (sqrtQ : ℚ → ℚ)
    (pos : Pos2) : ℚ :=
  sqrtQ (distSq pos (ld.getClosestPointOnCubicBezier pos))

def LinkBezierData.rectangleOverlapsBezier (ld : LinkBezierData) (rect : Rect) : Bool :=
  let dt : ℚ := 1 / (ld.numSegments : ℚ)
  ((List.range ld.numSegments).foldl
      (fun (acc : Bool × Pos2) i =>
        if acc.1 then acc
        else
          let next := ld.bezier.eval ((i + 1 : ℚ) * dt)
          (rectangleOverlapsLineSegment rect acc.2 next, next))
      (false, ld.bezier.eval 0)).1

/-! ### Interaction layer (`lib.rs`) -/

/-- `Style::get_screen_space_pin_coordinates`. -/
def Context.getScreenSpacePinCoordinatesRect (c : Context) (nodeRect attributeRect : Rect)
    (kind : AttributeType) : Pos2 :=
  let x :=
    match kind with
    | AttributeType.input => nodeRect.min.x - c.pinOffset
    | _ => nodeRect.max.x + c.pinOffset
  ⟨x, (1 / 2) * (attributeRect.min.y + attributeRect.max.y)⟩

/-- `Context::find_duplicate_link`: first live link equal (as an unordered
pin pair) to a test link built from the two pin slots. -/
def Context.findDuplicateLink (c : Context) (startPinIdx endPinIdx : Nat) : Option Nat :=
  let testLink : LinkData :=
    { LinkData.new 0 with start_pin_index := startPinIdx, end_pin_index := endPinIdx }
  ((c.links.pool.zip c.links.in_use).enum.find?
      (fun x => x.2.2 && LinkData.linkEq x.2.1 testLink)).map (fun x => x.1)

/-- `Context::should_link_snap_to_pin`. -/
def Context.shouldLinkSnapToPin (c : Context) (startPin : PinData) (hoveredPinIdx : Nat)
    (duplicateLink : Option Nat) : Bool :=
  let endPin := c.pins.pool.getD hoveredPinIdx (PinData.new 0)
  if startPin.parent_node_idx = endPin.parent_node_idx then false
  else if startPin.kind = endPin.kind then false
  else if duplicateLink.elim false (fun x => decide (some x ≠ c.snapLinkIdx)) then false
  else true

def Context.beginLinkDetach (c : Context) (idx detachIdx : Nat) : Context :=
  let link := c.links.pool.getD idx (LinkData.new 0)
  { c with
    linkCreationEndPinIndex := Option.none
    linkCreationStartPinIdx :=
      if detachIdx = link.start_pin_index then link.end_pin_index else link.start_pin_index
    deletedLinkIdx := some idx }

def Context.beginLinkCreation (c : Context) (hoveredPinIdx : Nat) : Context :=
  { c with
    clickInteractionType := ClickInteractionType.linkCreation
    linkCreationStartPinIdx := hoveredPinIdx
    linkCreationEndPinIndex := Option.none
    linkCreationType := LinkCreationType.standard
    elementStateChange := c.elementStateChange ||| 1 }

def Context.beginLinkSelection (c : Context) (idx : Nat) : Context :=
  { c with
    clickInteractionType := ClickInteractionType.link
    selectedNodeIndices := []
    selectedLinkIndices := [idx] }

/-- `Context::begin_link_interaction`.  The modifier-click detach path reads
two f32 point distances (square roots), so it takes `sqrtQ`. -/
def Context.beginLinkInteraction (sqrtQ : ℚ → ℚ) (c : Context) (idx : Nat) : Context :=
  if c.clickInteractionType = ClickInteractionType.linkCreation then
    if (c.hoveredPinFlags &&& 1) ≠ 0 then
      let c1 := c.beginLinkDetach idx (c.hoveredPinIndex.getD 0)
      { c1 with linkCreationType := LinkCreationType.fromDetach }
    else c
  else if c.linkDetatchWithModifierClick then
    let link := c.links.pool.getD idx (LinkData.new 0)
    let startPin := c.pins.pool.getD link.start_pin_index (PinData.new 0)
    let endPin := c.pins.pool.getD link.end_pin_index (PinData.new 0)
    let distToStart := sqrtQ (distSq startPin.pos c.mousePos)
    let distToEnd := sqrtQ (distSq endPin.pos c.mousePos)
    let closestPinIdx :=
      if distToStart < distToEnd then link.start_pin_index else link.end_pin_index
    let c1 := { c with clickInteractionType := ClickInteractionType.linkCreation }
    c1.beginLinkDetach idx closestPinIdx
  else c.beginLinkSelection idx

def Context.beginNodeSelection (c : Context) (idx : Nat) : Context :=
  if c.clickInteractionType ≠ ClickInteractionType.none then c
  else
    let c1 := { c with clickInteractionType := ClickInteractionType.node }
    if c1.selectedNodeIndices.contains idx then c1
    else
      { c1 with
        selectedNodeIndices := [idx]
        selectedLinkIndices := []
        nodeDepthOrder := (c1.nodeDepthOrder.filter (fun x => x ≠ idx)) ++ [idx] }

def Context.beginCanvasInteraction (c : Context) : Context :=
  let anyUiElementHovered :=
    c.hoveredNodeIndex.isSome || c.hoveredLinkIdx.isSome || c.hoveredPinIndex.isSome
  if decide (c.clickInteractionType ≠ ClickInteractionType.none) || anyUiElementHovered ||
      !c.mouseInCanvas then
    c
  else if c.altMouseClicked then
    { c with clickInteractionType := ClickInteractionType.panning }
  else
    { c with
      clickInteractionType := ClickInteractionType.boxSelection
      boxSelection := { c.boxSelection with min := c.mousePos } }

def Context.translateSelectedNodes (c : Context) : Context :=
  if c.leftMouseDragging then
    let delta := c.mouseDelta
    let newPool := c.selectedNodeIndices.foldl
      (fun pl idx =>
        let node := pl.getD idx (NodeData.new 0)
        if node.draggable then
          pl.set idx { node with origin := ⟨node.origin.x + delta.x, node.origin.y + delta.y⟩ }
        else pl)
      c.nodes.pool
    { c with nodes := { c.nodes with pool := newPool } }
  else c

/-- `Context::rectangle_overlaps_link`. -/
def Context.rectangleOverlapsLink (sqrtQ : ℚ → ℚ) (c : Context) (rect : Rect)
    (p q : Pos2) (startType : AttributeType) : Bool :=
  let lrect := (Rect.mk p q).normalized
  if rect.intersects lrect then
    if rect.containsP p || rect.containsP q then true
    else
      (LinkBezierData.getLinkRenderable sqrtQ p q startType
          c.linkLineSegmentsPerLength).rectangleOverlapsBezier rect
  else false

/-- `Context::box_selector_update_selection` (the returned rect is used only
for painting the selector and is dropped here). -/
def Context.boxSelectorUpdateSelection (sqrtQ : ℚ → ℚ) (c : Context) : Context :=
  let boxRect := c.boxSelection.normalized
  let selNodes := (c.nodes.pool.enum.filter
      (fun x => c.nodes.in_use.getD x.1 false && boxRect.intersects x.2.rect)).map
    (fun x => x.1)
  let selLinks := (c.links.pool.enum.filter
      (fun x =>
        c.links.in_use.getD x.1 false &&
          (let pinStart := c.pins.pool.getD x.2.start_pin_index (PinData.new 0)
           let pinEnd := c.pins.pool.getD x.2.end_pin_index (PinData.new 0)
           let nodeStartRect := (c.nodes.pool.getD pinStart.parent_node_idx (NodeData.new 0)).rect
           let nodeEndRect := (c.nodes.pool.getD pinEnd.parent_node_idx (NodeData.new 0)).rect
           let ps := c.getScreenSpacePinCoordinatesRect nodeStartRect pinStart.attribute_rect
             pinStart.kind
           let pe := c.getScreenSpacePinCoordinatesRect nodeEndRect pinEnd.attribute_rect
             pinEnd.kind
           c.rectangleOverlapsLink sqrtQ boxRect ps pe pinStart.kind))).map
    (fun x => x.1)
  { c with selectedNodeIndices := selNodes, selectedLinkIndices := selLinks }

/-- The `BoxSelection` arm of `click_interaction_update`: track the box to the
pointer, recompute the selection, and on release move the selected nodes to
the back of the depth order (`retain` collecting the removed indices, then
`extend`) and return to the idle state. -/
def Context.boxSelectionUpdate (sqrtQ : ℚ → ℚ) (c : Context) : Context :=
  let c1 := { c with boxSelection := { c.boxSelection with max := c.mousePos } }
  let c2 := c1.boxSelectorUpdateSelection sqrtQ
  if c2.leftMouseReleased then
    let selected := c2.selectedNodeIndices
    let idxs := c2.nodeDepthOrder.filter (fun x => selected.contains x)
    let rest := c2.nodeDepthOrder.filter (fun x => !(selected.contains x))
    { c2 with
      nodeDepthOrder := rest ++ idxs
      clickInteractionType := ClickInteractionType.none }
  else c2

/-- The `Node` arm of `click_interaction_update`. -/
def Context.nodeInteractionUpdate (c : Context) : Context :=
  let c1 := c.translateSelectedNodes
  if c1.leftMouseReleased then { c1 with clickInteractionType := ClickInteractionType.none }
  else c1

/-- The `Link` arm of `click_interaction_update`. -/
def Context.linkInteractionUpdate (c : Context) : Context :=
  if c.leftMouseReleased then { c with clickInteractionType := ClickInteractionType.none }
  else c

/-- The tail of the `LinkCreation` arm of `click_interaction_update`: the
link-created / early-return / link-dropped decision, for the state `c2`
reached after any detach and end-pin clearing. -/
def linkCreationFinish (c2 : Context) (createLink dupNone : Bool) : Context :=
  if createLink && dupNone then
    if !c2.leftMouseReleased && decide (c2.linkCreationEndPinIndex = c2.hoveredPinIndex) then
      c2
    else
      let c3 :=
        { c2 with
          elementStateChange := c2.elementStateChange ||| 4
          linkCreationEndPinIndex := c2.hoveredPinIndex }
      if c3.leftMouseReleased then
        { c3 with clickInteractionType := ClickInteractionType.none }
      else c3
  else
    if c2.leftMouseReleased then
      { c2 with
        clickInteractionType := ClickInteractionType.none
        elementStateChange :=
          if createLink then c2.elementStateChange else c2.elementStateChange ||| 2 }
    else c2

/-- The `LinkCreation` arm of `click_interaction_update` (provisional-curve
painting elided). -/
def Context.linkCreationUpdate (c : Context) : Context :=
  let maybeDuplicateLinkIdx := c.hoveredPinIndex.bind
    (fun idx => c.findDuplicateLink c.linkCreationStartPinIdx idx)
  let shouldSnap := c.hoveredPinIndex.elim false
    (fun idx =>
      c.shouldLinkSnapToPin (c.pins.pool.getD c.linkCreationStartPinIdx (PinData.new 0)) idx
        maybeDuplicateLinkIdx)
  let snappingPinChanged := c.linkCreationEndPinIndex.elim false
    (fun idx => decide (c.hoveredPinIndex ≠ some idx))
  let c1 :=
    if snappingPinChanged && c.snapLinkIdx.isSome then
      c.beginLinkDetach (c.snapLinkIdx.getD 0) (c.linkCreationEndPinIndex.getD 0)
    else c
  let linkCreationOnSnap := c1.hoveredPinIndex.elim false
    (fun idx => decide (((c1.pins.pool.getD idx (PinData.new 0)).flags &&& 2) ≠ 0))
  let c2 :=
    if !shouldSnap then { c1 with linkCreationEndPinIndex := Option.none } else c1
  let createLink := shouldSnap && (c2.leftMouseReleased || linkCreationOnSnap)
  linkCreationFinish c2 createLink maybeDuplicateLinkIdx.isNone

/-- The `Panning` arm of `click_interaction_update`. -/
def Context.panningUpdate (c : Context) : Context :=
  if c.altMouseDragging || c.altMouseClicked then
    { c with panning := ⟨c.panning.x + c.mouseDelta.x, c.panning.y + c.mouseDelta.y⟩ }
  else { c with clickInteractionType := ClickInteractionType.none }

/-- `Context::click_interaction_update`, with all painting elided.  The box
selector's link test and a detach's distance comparison consume square roots,
hence `sqrtQ`. -/
def Context.clickInteractionUpdate (sqrtQ : ℚ → ℚ) (c : Context) : Context :=
  match c.clickInteractionType with
  | ClickInteractionType.boxSelection => c.boxSelectionUpdate sqrtQ
  | ClickInteractionType.node => c.nodeInteractionUpdate
  | ClickInteractionType.link => c.linkInteractionUpdate
  | ClickInteractionType.linkCreation => c.linkCreationUpdate
  | ClickInteractionType.panning => c.panningUpdate
  | ClickInteractionType.none => c

/-- The interaction part of `Context::draw_pin`: refresh the pin's screen
position, and on a hovered pin record its flags and, on a primary click edge,
begin link creation.  Painting is elided. -/
def Context.drawPinInteraction (c : Context) (pinIdx : Nat) : Context :=
  let pin := c.pins.pool.getD pinIdx (PinData.new 0)
  let parentNodeRect := (c.nodes.pool.getD pin.parent_node_idx (NodeData.new 0)).rect
  let newPos := c.getScreenSpacePinCoordinatesRect parentNodeRect pin.attribute_rect pin.kind
  let c1 :=
    { c with pins := { c.pins with pool := c.pins.pool.set pinIdx { pin with pos := newPos } } }
  let pinHovered := decide (c1.hoveredPinIndex = some pinIdx) &&
    decide (c1.clickInteractionType ≠ ClickInteractionType.boxSelection)
  if pinHovered then
    let c2 := { c1 with hoveredPinFlags := pin.flags }
    if c2.leftMouseClicked then c2.beginLinkCreation pinIdx else c2
  else c1

/-- `Context::resolve_hovered_node`: zero overlapping nodes clears the hover,
one sets it, several pick the overlapping node with the largest depth-order
index. -/
def Context.resolveHoveredNode (c : Context) : Context :=
  match c.nodeIndicesOverlappingWithMouse with
  | [] => { c with hoveredNodeIndex := Option.none }
  | [x] => { c with hoveredNodeIndex := some x }
  | xs =>
    let res := xs.foldl
      (fun (acc : Int × Option Nat) nodeIdx =>
        c.nodeDepthOrder.enum.foldl
          (fun (acc2 : Int × Option Nat) d =>
            if d.2 = nodeIdx ∧ (d.1 : Int) > acc2.1 then ((d.1 : Int), some nodeIdx)
            else acc2)
          acc)
      (-1, c.hoveredNodeIndex)
    { c with hoveredNodeIndex := res.2 }

/-- The loop of `Context::resolve_hovered_link`: `smallest` models the
`f32::MAX` sentinel as `none`; a link whose endpoint pin is the hovered pin
returns immediately (the source's early `return`). -/
def linkHoverLoop (sqrtQ : ℚ → ℚ) (c : Context) :
    List Nat → Option ℚ → Option Nat → Option Nat
  | [], _, hovered => hovered
  | idx :: rest, smallest, hovered =>
    if !(c.links.in_use.getD idx false) then linkHoverLoop sqrtQ c rest smallest hovered
    else
      let link := c.links.pool.getD idx (LinkData.new 0)
      if decide (c.hoveredPinIndex = some link.start_pin_index) ||
          decide (c.hoveredPinIndex = some link.end_pin_index) then
        some idx
      else
        let startPin := c.pins.pool.getD link.start_pin_index (PinData.new 0)
        let endPin := c.pins.pool.getD link.end_pin_index (PinData.new 0)
        let linkData := LinkBezierData.getLinkRenderable sqrtQ startPin.pos endPin.pos
          startPin.kind c.linkLineSegmentsPerLength
        let linkRect := linkData.bezier.getContainingRectForBezierCurve c.linkHoverDistance
        if linkRect.containsP c.mousePos then
          let distance := linkData.getDistanceToCubicBezier sqrtQ c.mousePos
          let closer := smallest.elim true (fun s => decide (distance < s))
          if decide (distance < c.linkHoverDistance) && closer then
            linkHoverLoop sqrtQ c rest (some distance) (some idx)
          else linkHoverLoop sqrtQ c rest smallest hovered
        else linkHoverLoop sqrtQ c rest smallest hovered

def Context.resolveHoveredLink (sqrtQ : ℚ → ℚ) (c : Context) : Context :=
  { c with
    hoveredLinkIdx :=
      linkHoverLoop sqrtQ c (List.range c.links.pool.length) Option.none Option.none }

/-- Occlusion and pin-hover resolution, as sequenced in `show`. -/
def Context.hoverStagePin (c : Context) : Context :=
  (c.resolveOccludedPins).resolveHoveredPin

/-- Node-hover resolution runs only when no pin is hovered. -/
def Context.hoverStageNode (c : Context) : Context :=
  let c2 := c.hoverStagePin
  if c2.hoveredPinIndex.isNone then c2.resolveHoveredNode else c2

/-- The hover-resolution block of `Context::show` (lines 233-244): inside the
canvas, resolve occlusion and the hovered pin, then the hovered node if no
pin is hovered, then the hovered link if no node is hovered. -/
def Context.resolveHoverAll (sqrtQ : ℚ → ℚ) (c : Context) : Context :=
  if c.mouseInCanvas then
    let c3 := c.hoverStageNode
    if c3.hoveredNodeIndex.isNone then c3.resolveHoveredLink sqrtQ else c3
  else c

/-- Accessors of selection state (`lib.rs` lines 370-380). -/
def Context.numSelectedNodes (c : Context) : Nat :=
  c.selectedLinkIndices.length

def Context.getSelectedNodes (c : Context) : List Nat :=
  c.selectedNodeIndices.map (fun x => (c.nodes.pool.getD x (NodeData.new 0)).id)

def Context.getSelectedLinks (c : Context) : List Nat :=
  c.selectedLinkIndices.map (fun x => (c.links.pool.getD x (LinkData.new 0)).id)

/-- C10: `num_selected_nodes` returns the length of the selected-LINK index
list, so its result differs from the length of `get_selected_nodes()`
whenever the two selection lists have different lengths. -/
theorem numSelectedNodes_counts_links (c : Context) :
    c.numSelectedNodes = c.selectedLinkIndices.length ∧
      (c.selectedLinkIndices.length ≠ c.selectedNodeIndices.length →
        c.numSelectedNodes ≠ (c.getSelectedNodes).length) := by
  refine ⟨rfl, ?_⟩
  intro h hc
  rw [Context.numSelectedNodes, Context.getSelectedNodes, List.length_map] at hc
  exact h hc

theorem numSelectedNodes_counts_links_witness :
    ({ defaultContext with selectedLinkIndices := [0, 1] } : Context).numSelectedNodes =
        [0, 1].length :=
  (numSelectedNodes_counts_links { defaultContext with selectedLinkIndices := [0, 1] }).1

/-- Context for the C8 counterexample: mid-`Panning` (middle button held), a
primary-click edge arrives over a hovered pin. -/
def ctxPan : Context :=
  { defaultContext with
    clickInteractionType := ClickInteractionType.panning
    hoveredPinIndex := some 0
    leftMouseClicked := true
    mouseInCanvas := true
    nodes := ⟨[NodeData.new 1], [true], [], [(1, 0)]⟩
    pins := ⟨[PinData.new 7], [true], [], [(7, 0)]⟩ }

/-- C8 counterexample: from the non-idle mode `Panning`, a primary click on a
hovered pin (the `draw_pin` path into `begin_link_creation`) moves the
machine directly into `LinkCreation` — a cross-mode transition the claim
forbids. -/
theorem panning_to_link_creation :
    ctxPan.clickInteractionType = ClickInteractionType.panning ∧
      (ctxPan.drawPinInteraction 0).clickInteractionType =
        ClickInteractionType.linkCreation := by
  refine ⟨rfl, ?_⟩
  simp [ctxPan, defaultContext, emptyPool, Context.drawPinInteraction,
    Context.getScreenSpacePinCoordinatesRect, PinData.new, NodeData.new,
    Context.beginLinkCreation]

theorem translateSelectedNodes_type (c : Context) :
    (c.translateSelectedNodes).clickInteractionType = c.clickInteractionType := by
  unfold Context.translateSelectedNodes
  split <;> rfl

theorem linkCreationFinish_type (c2 : Context) (createLink dupNone : Bool) :
    (linkCreationFinish c2 createLink dupNone).clickInteractionType =
        c2.clickInteractionType ∨
      (linkCreationFinish c2 createLink dupNone).clickInteractionType =
        ClickInteractionType.none := by
  unfold linkCreationFinish
  dsimp only
  split
  · split
    · exact Or.inl rfl
    · split
      · exact Or.inr rfl
      · exact Or.inl rfl
  · split
    · exact Or.inr rfl
    · exact Or.inl rfl

theorem detach_branch_type (b : Bool) (c : Context) (i d : Nat) :
    (if b then c.beginLinkDetach i d else c).clickInteractionType =
      c.clickInteractionType := by
  cases b <;> rfl

theorem clear_endpin_branch_type (b : Bool) (c1 : Context) :
    (if b then { c1 with linkCreationEndPinIndex := Option.none } else c1).clickInteractionType =
      c1.clickInteractionType := by
  cases b <;> rfl

theorem linkCreationUpdate_type (c : Context) :
    (c.linkCreationUpdate).clickInteractionType = c.clickInteractionType ∨
      (c.linkCreationUpdate).clickInteractionType = ClickInteractionType.none := by
  unfold Context.linkCreationUpdate
  rcases linkCreationFinish_type
      (if !(c.hoveredPinIndex.elim false fun idx =>
          c.shouldLinkSnapToPin (c.pins.pool.getD c.linkCreationStartPinIdx (PinData.new 0)) idx
            (c.hoveredPinIndex.bind fun idx =>
              c.findDuplicateLink c.linkCreationStartPinIdx idx)) then
        { (if ((c.linkCreationEndPinIndex.elim false fun idx =>
                  decide (c.hoveredPinIndex ≠ some idx)) && c.snapLinkIdx.isSome) then
            c.beginLinkDetach (c.snapLinkIdx.getD 0) (c.linkCreationEndPinIndex.getD 0)
          else c) with linkCreationEndPinIndex := Option.none }
       else
        (if ((c.linkCreationEndPinIndex.elim false fun idx =>
                decide (c.hoveredPinIndex ≠ some idx)) && c.snapLinkIdx.isSome) then
          c.beginLinkDetach (c.snapLinkIdx.getD 0) (c.linkCreationEndPinIndex.getD 0)
        else c)) _ _ with h | h
  · rw [h, clear_endpin_branch_type, detach_branch_type]
    exact Or.inl rfl
  · rw [h]
    exact Or.inr rfl

theorem clickInteractionUpdate_box (sqrtQ : ℚ → ℚ) (c : Context)
    (h : c.clickInteractionType = ClickInteractionType.boxSelection) :
    c.clickInteractionUpdate sqrtQ = c.boxSelectionUpdate sqrtQ := by
  unfold Context.clickInteractionUpdate
  rw [h]

theorem clickInteractionUpdate_node (sqrtQ : ℚ → ℚ) (c : Context)
    (h : c.clickInteractionType = ClickInteractionType.node) :
    c.clickInteractionUpdate sqrtQ = c.nodeInteractionUpdate := by
  unfold Context.clickInteractionUpdate
  rw [h]

theorem clickInteractionUpdate_link (sqrtQ : ℚ → ℚ) (c : Context)
    (h : c.clickInteractionType = ClickInteractionType.link) :
    c.clickInteractionUpdate sqrtQ = c.linkInteractionUpdate := by
  unfold Context.clickInteractionUpdate
  rw [h]

theorem clickInteractionUpdate_linkCreation (sqrtQ : ℚ → ℚ) (c : Context)
    (h : c.clickInteractionType = ClickInteractionType.linkCreation) :
    c.clickInteractionUpdate sqrtQ = c.linkCreationUpdate := by
  unfold Context.clickInteractionUpdate
  rw [h]

theorem clickInteractionUpdate_panning (sqrtQ : ℚ → ℚ) (c : Context)
    (h : c.clickInteractionType = ClickInteractionType.panning) :
    c.clickInteractionUpdate sqrtQ = c.panningUpdate := by
  unfold Context.clickInteractionUpdate
  rw [h]

theorem clickInteractionUpdate_idle (sqrtQ : ℚ → ℚ) (c : Context)
    (h : c.clickInteractionType = ClickInteractionType.none) :
    c.clickInteractionUpdate sqrtQ = c := by
  unfold Context.clickInteractionUpdate
  rw [h]

/-- C8 (amended): `begin_canvas_interaction` (entry into `BoxSelection` and
`Panning`) and `begin_node_selection` (entry into `Node`) are no-ops unless
the machine is idle, and one `click_interaction_update` step either keeps the
current mode or returns to idle; entry into `LinkCreation` stays in
`LinkCreation` when it re-enters from there, but `begin_link_creation` (a
click on a hovered pin) moves to `LinkCreation` from ANY current mode — in
particular from `Panning` — so pin- and link-click entries are not guarded by
idleness. -/
theorem interaction_mode_transitions (sqrtQ : ℚ → ℚ) (c : Context) (idx : Nat) :
    (c.clickInteractionType ≠ ClickInteractionType.none → c.beginCanvasInteraction = c) ∧
      (c.clickInteractionType ≠ ClickInteractionType.none → c.beginNodeSelection idx = c) ∧
      ((c.clickInteractionUpdate sqrtQ).clickInteractionType = c.clickInteractionType ∨
        (c.clickInteractionUpdate sqrtQ).clickInteractionType = ClickInteractionType.none) ∧
      (c.clickInteractionType = ClickInteractionType.linkCreation →
        (c.beginLinkInteraction sqrtQ idx).clickInteractionType =
          ClickInteractionType.linkCreation) ∧
      (c.beginLinkCreation idx).clickInteractionType = ClickInteractionType.linkCreation := by
  refine ⟨?_, ?_, ?_, ?_, rfl⟩
  · intro h
    unfold Context.beginCanvasInteraction
    simp [h]
  · intro h
    unfold Context.beginNodeSelection
    rw [if_pos h]
  · cases h : c.clickInteractionType with
    | boxSelection =>
      rw [clickInteractionUpdate_box sqrtQ c h]
      unfold Context.boxSelectionUpdate
      dsimp only
      split
      · exact Or.inr rfl
      · exact Or.inl h
    | node =>
      rw [clickInteractionUpdate_node sqrtQ c h]
      unfold Context.nodeInteractionUpdate
      dsimp only
      split
      · exact Or.inr rfl
      · rw [translateSelectedNodes_type]
        exact Or.inl h
    | link =>
      rw [clickInteractionUpdate_link sqrtQ c h]
      unfold Context.linkInteractionUpdate
      split
      · exact Or.inr rfl
      · exact Or.inl h
    | linkCreation =>
      rw [clickInteractionUpdate_linkCreation sqrtQ c h]
      rcases linkCreationUpdate_type c with h2 | h2
      · rw [h2]
        exact Or.inl h
      · exact Or.inr h2
    | panning =>
      rw [clickInteractionUpdate_panning sqrtQ c h]
      unfold Context.panningUpdate
      split
      · exact Or.inl h
      · exact Or.inr rfl
    | none =>
      rw [clickInteractionUpdate_idle sqrtQ c h]
      exact Or.inl h

  · intro h
    unfold Context.beginLinkInteraction
    rw [if_pos h]
    split
    · exact h
    · exact h

theorem interaction_mode_transitions_witness :
    (ctxPan.beginLinkCreation 0).clickInteractionType = ClickInteractionType.linkCreation :=
  (interaction_mode_transitions (fun q => q) ctxPan 0).2.2.2.2

theorem linkEq_pair_swap (a b : Nat) :
    LinkData.linkEq ⟨0, a, b⟩ ⟨0, b, a⟩ = true := by
  unfold LinkData.linkEq
  by_cases h : a > b
  · have h2 : ¬(b > a) := by omega
    simp [h, h2]
  · by_cases h2 : b > a
    · simp [h, h2]
    · have h3 : a = b := by omega
      subst h3
      simp [h]

theorem getElem?_eq_getD_of_lt {α : Type} (l : List α) (d : α) {j : Nat}
    (h : j < l.length) : l[j]? = some (l.getD j d) := by
  rw [List.getD_eq_getElem?_getD]
  cases hx : l[j]? with
  | none => exact absurd (List.getElem?_eq_none_iff.mp hx) (Nat.not_le.mpr h)
  | some v => rfl

theorem findDuplicateLink_some {c : Context} {a b idx : Nat}
    (h : c.findDuplicateLink a b = some idx) :
    c.links.in_use.getD idx false = true ∧
      LinkData.linkEq (c.links.pool.getD idx (LinkData.new 0)) ⟨0, a, b⟩ = true := by
  unfold Context.findDuplicateLink at h
  rw [Option.map_eq_some'] at h
  obtain ⟨x, hx, hx1⟩ := h
  have hpred := List.find?_some hx
  have hmem := List.mem_of_find?_eq_some hx
  rw [List.mem_enum_iff_getElem?, List.getElem?_zip_eq_some] at hmem
  obtain ⟨hpool, huse⟩ := hmem
  simp only [Bool.and_eq_true] at hpred
  subst hx1
  constructor
  · rw [List.getD_eq_getElem?_getD, huse]
    exact hpred.1
  · rw [List.getD_eq_getElem?_getD, hpool]
    exact hpred.2

theorem findDuplicateLink_complete {c : Context} {a b j : Nat}
    (hj : j < c.links.pool.length) (huse : c.links.in_use.getD j false = true)
    (heq : LinkData.linkEq (c.links.pool.getD j (LinkData.new 0)) ⟨0, a, b⟩ = true) :
    (c.findDuplicateLink a b).isSome = true := by
  unfold Context.findDuplicateLink
  have hjuse : j < c.links.in_use.length := by
    by_contra hc
    rw [List.getD_eq_getElem?_getD, List.getElem?_eq_none_iff.mpr (Nat.le_of_not_lt hc)]
      at huse
    simp at huse
  rw [Option.isSome_map', List.find?_isSome]
  refine ⟨(j, (c.links.pool.getD j (LinkData.new 0), true)), ?_, ?_⟩
  · rw [List.mem_enum_iff_getElem?, List.getElem?_zip_eq_some]
    refine ⟨?_, ?_⟩
    · show c.links.pool[j]? = some (c.links.pool.getD j (LinkData.new 0))
      exact getElem?_eq_getD_of_lt _ _ hj
    · show c.links.in_use[j]? = some true
      rw [← huse]
      exact getElem?_eq_getD_of_lt _ _ hjuse
  · show (true && LinkData.linkEq (c.links.pool.getD j (LinkData.new 0)) ⟨0, a, b⟩) = true
    rw [Bool.true_and]
    exact heq

theorem detach_branch_esc (b : Bool) (c : Context) (i d : Nat) :
    (if b then c.beginLinkDetach i d else c).elementStateChange = c.elementStateChange := by
  cases b <;> rfl

theorem clear_endpin_branch_esc (b : Bool) (c1 : Context) :
    (if b then { c1 with linkCreationEndPinIndex := Option.none }
     else c1).elementStateChange = c1.elementStateChange := by
  cases b <;> rfl

theorem linkCreationFinish_esc_of_dup (c2 : Context) (createLink : Bool)
    (hbit : c2.elementStateChange.testBit 2 = false) :
    (linkCreationFinish c2 createLink false).elementStateChange.testBit 2 = false := by
  unfold linkCreationFinish
  rw [Bool.and_false]
  rw [if_neg (by exact Bool.false_ne_true)]
  split
  · show Nat.testBit
        (if createLink = true then c2.elementStateChange else c2.elementStateChange ||| 2) 2 =
      false
    split
    · exact hbit
    · rw [Nat.testBit_or, hbit]
      decide
  · exact hbit

/-- C5: link equality compares the unordered pin pair (symmetric in the two
slots); `find_duplicate_link` returns only a live link with the same
unordered pair and finds one whenever it exists; and the `LinkCreation` step
never raises the link-created flag while `find_duplicate_link` reports a live
duplicate for the (start pin, hovered pin) pair. -/
theorem duplicate_link_detection (c : Context) (a b : Nat) :
    LinkData.linkEq ⟨0, a, b⟩ ⟨0, b, a⟩ = true ∧
      (∀ idx, c.findDuplicateLink a b = some idx →
        c.links.in_use.getD idx false = true ∧
          LinkData.linkEq (c.links.pool.getD idx (LinkData.new 0)) ⟨0, a, b⟩ = true) ∧
      (∀ j, j < c.links.pool.length → c.links.in_use.getD j false = true →
        LinkData.linkEq (c.links.pool.getD j (LinkData.new 0)) ⟨0, a, b⟩ = true →
        (c.findDuplicateLink a b).isSome = true) ∧
      (∀ d, c.hoveredPinIndex = some b →
        c.findDuplicateLink c.linkCreationStartPinIdx b = some d →
        c.elementStateChange.testBit 2 = false →
        (c.linkCreationUpdate).elementStateChange.testBit 2 = false) := by
  refine ⟨linkEq_pair_swap a b, fun idx h => findDuplicateLink_some h,
    fun j hj hu he => findDuplicateLink_complete hj hu he, ?_⟩
  intro d hhov hdup hbit
  unfold Context.linkCreationUpdate
  rw [hhov]
  simp only [Option.some_bind]
  simp only [hdup, Option.isNone_some]
  apply linkCreationFinish_esc_of_dup
  rw [clear_endpin_branch_esc, detach_branch_esc]
  exact hbit

theorem duplicate_link_detection_witness :
    LinkData.linkEq ⟨0, 3, 5⟩ ⟨0, 5, 3⟩ = true :=
  (duplicate_link_detection defaultContext 3 5).1

/-- Context for the C7 counterexample: one pin at the pointer (hovered), one
live link with that pin as an endpoint, no nodes. -/
def ctxPinLink : Context :=
  { defaultContext with
    mouseInCanvas := true
    mousePos := ⟨0, 0⟩
    pins := ⟨[{ PinData.new 7 with pos := ⟨0, 0⟩ }], [true], [], [(7, 0)]⟩
    links := ⟨[{ LinkData.new 9 with start_pin_index := 0, end_pin_index := 0 }], [true], [],
      [(9, 0)]⟩ }

/-- C7 counterexample: a pin IS hovered (pin slot 0), yet link hover
resolution still runs — pin hover merely skips node resolution, leaving the
hovered node `none` — and resolves the hovered link through the endpoint
short-circuit, so "computed only when no pin is hovered" is false. -/
theorem link_hover_runs_with_pin_hovered :
    ((ctxPinLink.resolveHoverAll (fun q => q)).hoveredPinIndex = some 0) ∧
      ((ctxPinLink.resolveHoverAll (fun q => q)).hoveredLinkIdx = some 0) := by
  simp [ctxPinLink, defaultContext, emptyPool, Context.resolveHoverAll,
    Context.hoverStageNode, Context.hoverStagePin, Context.resolveOccludedPins,
    Context.resolveHoveredPin, pinHoverStep, pinDistSq, distSq, Pos2.sub, Pos2.lengthSq,
    PinData.new, LinkData.new, Context.resolveHoveredLink, linkHoverLoop, List.range_succ]

/-- The pointer's hovered pin is an endpoint of link slot `j`. -/
def linkEndpointHovered (c : Context) (j : Nat) : Prop :=
  c.hoveredPinIndex = some (c.links.pool.getD j (LinkData.new 0)).start_pin_index ∨
    c.hoveredPinIndex = some (c.links.pool.getD j (LinkData.new 0)).end_pin_index

theorem linkHoverLoop_shortCircuit (sqrtQ : ℚ → ℚ) (c : Context) (k : Nat)
    (rest : List Nat) (hkuse : c.links.in_use.getD k false = true)
    (hk : linkEndpointHovered c k) :
    ∀ l1 : List Nat,
      (∀ j ∈ l1, c.links.in_use.getD j false = true → ¬linkEndpointHovered c j) →
      ∀ smallest hovered,
        linkHoverLoop sqrtQ c (l1 ++ k :: rest) smallest hovered = some k := by
  intro l1
  induction l1 with
  | nil =>
    intro _ smallest hovered
    show linkHoverLoop sqrtQ c (k :: rest) smallest hovered = some k
    unfold linkHoverLoop
    rw [hkuse]
    simp only [Bool.not_true, Bool.false_eq_true, if_false]
    rcases hk with hk | hk <;> simp [hk]
  | cons x t ih =>
    intro hall smallest hovered
    have htail : ∀ j ∈ t, c.links.in_use.getD j false = true → ¬linkEndpointHovered c j :=
      fun j hj => hall j (List.mem_cons_of_mem x hj)
    show linkHoverLoop sqrtQ c (x :: (t ++ k :: rest)) smallest hovered = some k
    unfold linkHoverLoop
    by_cases hx : c.links.in_use.getD x false = true
    · rw [hx]
      simp only [Bool.not_true, Bool.false_eq_true, if_false]
      have hnsc := hall x (List.mem_cons_self x t) hx
      have h1 : decide (c.hoveredPinIndex =
          some (c.links.pool.getD x (LinkData.new 0)).start_pin_index) = false :=
        decide_eq_false (fun hc => hnsc (Or.inl hc))
      have h2 : decide (c.hoveredPinIndex =
          some (c.links.pool.getD x (LinkData.new 0)).end_pin_index) = false :=
        decide_eq_false (fun hc => hnsc (Or.inr hc))
      rw [h1, h2]
      simp only [Bool.or_false, Bool.false_eq_true, if_false]
      split
      · split
        · exact ih htail _ _
        · exact ih htail _ _
      · exact ih htail _ _
    · have hx' : c.links.in_use.getD x false = false := by
        cases hg : c.links.in_use.getD x false
        · rfl
        · exact absurd hg hx
      rw [hx']
      simp only [Bool.not_false, if_true]
      exact ih htail _ _

theorem resolveHoveredNode_hoveredLinkIdx (c : Context) :
    (c.resolveHoveredNode).hoveredLinkIdx = c.hoveredLinkIdx := by
  unfold Context.resolveHoveredNode
  split <;> rfl

theorem hoverStageNode_hoveredLinkIdx (c : Context) :
    (c.hoverStageNode).hoveredLinkIdx = c.hoveredLinkIdx := by
  unfold Context.hoverStageNode
  dsimp only
  split
  · rw [resolveHoveredNode_hoveredLinkIdx]
    rfl
  · rfl

/-- C7 (amended): link hover resolution runs exactly when the pointer is in
the canvas and no NODE is hovered — a hovered pin does not prevent it (it
merely skips node resolution) — and when it runs while the pointer's hovered
pin is an endpoint of some live link, the first such link in pool order is
immediately the resolved hovered link. -/
theorem resolveHoveredLink_gating_and_first_endpoint (sqrtQ : ℚ → ℚ) (c : Context) :
    ((c.hoverStageNode).hoveredNodeIndex.isNone = false →
        (c.resolveHoverAll sqrtQ).hoveredLinkIdx = c.hoveredLinkIdx) ∧
      (∀ k, k < c.links.pool.length → c.links.in_use.getD k false = true →
        linkEndpointHovered c k →
        (∀ j, j < k → c.links.in_use.getD j false = true → ¬linkEndpointHovered c j) →
        (c.resolveHoveredLink sqrtQ).hoveredLinkIdx = some k) := by
  constructor
  · intro h
    unfold Context.resolveHoverAll
    dsimp only
    split
    · simp only [h, Bool.false_eq_true, if_false]
      exact hoverStageNode_hoveredLinkIdx c
    · rfl
  · intro k hk hkuse hkend hpref
    show linkHoverLoop sqrtQ c (List.range c.links.pool.length) Option.none Option.none =
      some k
    have hsplit : List.range c.links.pool.length =
        List.range' 0 k ++ k :: List.range' (k + 1) (c.links.pool.length - k - 1) := by
      rw [List.range_eq_range']
      rw [show c.links.pool.length = (c.links.pool.length - k) + k by omega]
      rw [← List.range'_append 0 k (c.links.pool.length - k) 1]
      congr 1
      simp only [Nat.one_mul, Nat.zero_add]
      rw [show c.links.pool.length - k = (c.links.pool.length - k - 1) + 1 by omega]
      rw [List.range'_succ]
      congr 2
      omega
    rw [hsplit]
    refine linkHoverLoop_shortCircuit sqrtQ c k _ hkuse hkend _ ?_ _ _
    intro j hj huse
    have hjk : j < k := by
      have := List.mem_range'_1.mp hj
      omega
    exact hpref j hjk huse

/-- Witness context: the short-circuit input with the pin hover already
resolved. -/
def ctxLinkSC : Context :=
  { ctxPinLink with hoveredPinIndex := some 0 }

theorem resolveHoveredLink_gating_and_first_endpoint_witness :
    (ctxLinkSC.resolveHoveredLink (fun q => q)).hoveredLinkIdx = some 0 :=
  (resolveHoveredLink_gating_and_first_endpoint (fun q => q) ctxLinkSC).2 0 (by decide)
    (by decide) (Or.inl (by decide)) (fun j hj _ => absurd hj (Nat.not_lt_zero j))

end EguiNodes
